import Mathlib

/-!
Verification development for the SKOS/TTL cleaner (src/ttl_cleaner.py).

The Python source is shallowly embedded below.  Python strings are modelled
as Lean `String` (operated on through their `List Char` data), Python `None`
as `Option`, the mutable statistics / change-log state of the `TTLCleaner`
object as an explicit `CleanerState` record that is threaded through the
functions that mutate it.  The handful of regular expressions that the
source uses are hand-compiled to dedicated scanners with the exact matching
semantics of those concrete patterns (greedy character classes, the
left-to-right non-overlapping scan of `re.findall` / `re.finditer`, the
line-start anchoring of `re.MULTILINE`).

Modelling notes, applying throughout:
* Python's `\s` and `str.strip()` accept a few more exotic Unicode spaces;
  we model the ASCII whitespace set (space, tab, newline, carriage return,
  vertical tab, form feed), which is what every claim exercises.
* Python `set` iteration order is unspecified; wherever the source iterates
  a set only to render the interior of a message (never to decide control
  flow) we fix first-insertion order.  Membership and emptiness tests, the
  only set operations that influence control flow, are order-independent.
* Python `dict` preserves first-insertion key order and later assignments
  overwrite the value in place; we model dicts as association lists with
  first-occurrence key order and last-write-wins values.
-/

namespace TTL

/-- Whitespace class of Python's `\s` (ASCII part) and `str.strip()`. -/
def py_space (c : Char) : Bool :=
  c = ' ' || c = '\t' || c = '\n' || c = '\r' || c = Char.ofNat 11 || c = Char.ofNat 12

/-- Character class of the concept-start pattern: ASCII letters, digits,
underscore, colon, slash, hyphen. -/
def subj_char (c : Char) : Bool :=
  ('a' ≤ c && c ≤ 'z') || ('A' ≤ c && c ≤ 'Z') || ('0' ≤ c && c ≤ '9') ||
  c = '_' || c = ':' || c = '/' || c = '-'

/-- Lowercase ASCII letter, the class `[a-z]`. -/
def low_char (c : Char) : Bool := 'a' ≤ c && c ≤ 'z'

/-- ASCII digit, the class `\d` (ASCII part). -/
def digit_char (c : Char) : Bool := '0' ≤ c && c ≤ '9'

/-- Alphanumeric ASCII, the class `[A-Za-z0-9]`. -/
def alnum_char (c : Char) : Bool :=
  ('a' ≤ c && c ≤ 'z') || ('A' ≤ c && c ≤ 'Z') || ('0' ≤ c && c ≤ '9')

/-- Python `str.strip()` on the character list. -/
def strip_list (l : List Char) : List Char :=
  ((l.dropWhile py_space).reverse.dropWhile py_space).reverse

/-- Python `str.strip()`. -/
def py_strip (s : String) : String := ⟨strip_list s.data⟩

/-- Python `str.strip(chars)` : drop the given characters from both ends. -/
def strip_set (chars : List Char) (s : String) : String :=
  ⟨((s.data.dropWhile (chars.contains ·)).reverse.dropWhile (chars.contains ·)).reverse⟩

/-- Python `str.rstrip(chars)` : drop the given characters from the right end. -/
def rstrip_set (chars : List Char) (s : String) : String :=
  ⟨(s.data.reverse.dropWhile (chars.contains ·)).reverse⟩

/-- Split a character list at every occurrence of `sep` (like Python
`str.split(sep)` for a one-character separator: empty pieces are kept). -/
def split_on_char (sep : Char) : List Char → List (List Char)
  | [] => [[]]
  | c :: t =>
    let r := split_on_char sep t
    if c = sep then [] :: r
    else
      match r with
      | h :: t' => (c :: h) :: t'
      | [] => [[c]]

/-- Python `content.split('\n')` as strings. -/
def split_lines (s : String) : List String :=
  (split_on_char '\n' s.data).map (fun l => ⟨l⟩)

/-- Python `str.split()` with no argument: split on whitespace runs,
dropping empty pieces. -/
def py_split_ws (s : String) : List String :=
  ((split_on_char ' ' (s.data.map (fun c => if py_space c then ' ' else c))).filter
    (· ≠ [])).map (fun l => ⟨l⟩)

/-- Python `prefix.isPrefixOf`-style `str.startswith`. -/
def py_starts_with (s pre : String) : Bool := pre.data.isPrefixOf s.data

/-- Python `str.endswith`. -/
def py_ends_with (s suf : String) : Bool := suf.data.reverse.isPrefixOf s.data.reverse

/-- Substring containment, Python's `pat in s` on strings. -/
def contains_sub_list (pat : List Char) : List Char → Bool
  | [] => pat.isPrefixOf []
  | c :: t => pat.isPrefixOf (c :: t) || contains_sub_list pat t

/-- Python `pat in s` for strings. -/
def contains_sub (s pat : String) : Bool := contains_sub_list pat.data s.data

/-- Python `ch in s` for a single character. -/
def contains_char (s : String) (ch : Char) : Bool := s.data.contains ch

/-- Python `str.replace(pat, rep)` : left-to-right, non-overlapping.  The
`fuel` argument bounds the scan; callers pass the length of the input. -/
def replace_all_list (pat rep : List Char) : Nat → List Char → List Char
  | 0, l => l
  | _ + 1, [] => []
  | fuel + 1, l@(c :: t) =>
    if pat ≠ [] && pat.isPrefixOf l then rep ++ replace_all_list pat rep fuel (l.drop pat.length)
    else c :: replace_all_list pat rep fuel t

/-- Python `str.replace` wrapper on strings. -/
def replace_all (s pat rep : String) : String :=
  ⟨replace_all_list pat.data rep.data s.data.length s.data⟩

/-- ASCII `str.lower()`; only the A-Z range matters for the checks that use it. -/
def ascii_lower (s : String) : String :=
  ⟨s.data.map (fun c => if 'A' ≤ c && c ≤ 'Z' then Char.ofNat (c.toNat + 32) else c)⟩

/-- Python `max(l, key=len)` : the first element of maximal length
(a later element replaces the current one only if strictly longer). -/
def max_by_len (h : String) (t : List String) : String :=
  t.foldl (fun acc x => if acc.length < x.length then x else acc) h

/-- Stable ascending string sort (Python `sorted`), via insertion sort so
that it evaluates by kernel reduction. -/
def insert_sorted (x : String) : List String → List String
  | [] => [x]
  | y :: t => if decide (x < y) then x :: y :: t else y :: insert_sorted x t

/-- Python `sorted` for lists of strings. -/
def sort_strs : List String → List String
  | [] => []
  | x :: t => insert_sorted x (sort_strs t)

/-- First-occurrence deduplication, used to model `dict`/`set` insertion order. -/
def dedup_first : List String → List String
  | [] => []
  | x :: t => if (dedup_first t).contains x then dedup_first t else x :: dedup_first t

/-- First-occurrence deduplication keeping input order. -/
def dedup_first_order (l : List String) : List String :=
  (l.foldl (fun acc x => if acc.contains x then acc else acc ++ [x]) [])

/-- Truncation used by the change log: texts longer than 120 characters are
cut to 117 characters plus an ellipsis. -/
def trunc120 (s : String) : String :=
  if 120 < s.length then ⟨s.data.take 117⟩ ++ "..." else s

end TTL

namespace TTL

/-- A `(text, languageTag)` pair as stored in the label / note lists of a
parsed concept (`{'text': ..., 'lang': ...}` in the source). -/
structure LPair where
  text : String
  lang : String
  deriving DecidableEq, Repr

/-- The concept record built by `_parse_concept_block`. -/
structure Concept where
  uri : String
  prefLabels : List LPair
  altLabels : List LPair
  definitions : List LPair
  notes : List LPair
  scopeNotes : List LPair
  editorialNotes : List LPair
  historyNotes : List LPair
  changeNotes : List LPair
  examples : List LPair
  other_properties : List String
  raw_block : String
  issues : List String
  deriving DecidableEq, Repr

/-- The mutable state of a `TTLCleaner` instance: the `stats` counter map
(one field per counter), the change log, document-level metadata and the
configuration flags passed to `__init__`. -/
structure CleanerState where
  total_concepts : Nat
  duplicates_removed : Nat
  malformed_uris_fixed : Nat
  uri_normalizations : Nat
  encoding_issues_fixed : Nat
  text_fields_cleaned : Nat
  labels_processed : Nat
  final_concepts : Nat
  definitions_processed : Nat
  notes_processed : Nat
  empty_labels_removed : Nat
  invalid_concepts_removed : Nat
  comma_fixes : Nat
  concepts_without_preflabel : Nat
  change_log : List String
  validation_infos : List String
  base_declaration : Option String
  concept_scheme : Option String
  base_uri : Option String
  chunk_size : Nat
  enable_validation : Bool
  memory_efficient : Bool
  enable_skos_xl : Bool
  autofix_broader : Bool
  warn_missing_narrower : Bool
  deriving DecidableEq, Repr

/-- A fresh `TTLCleaner(...)` with the constructor's default arguments. -/
def init_state : CleanerState where
  total_concepts := 0
  duplicates_removed := 0
  malformed_uris_fixed := 0
  uri_normalizations := 0
  encoding_issues_fixed := 0
  text_fields_cleaned := 0
  labels_processed := 0
  final_concepts := 0
  definitions_processed := 0
  notes_processed := 0
  empty_labels_removed := 0
  invalid_concepts_removed := 0
  comma_fixes := 0
  concepts_without_preflabel := 0
  change_log := []
  validation_infos := []
  base_declaration := none
  concept_scheme := none
  base_uri := none
  chunk_size := 1000
  enable_validation := true
  memory_efficient := false
  enable_skos_xl := false
  autofix_broader := false
  warn_missing_narrower := false

/-- The fixed mojibake table shared by `_clean_label` and
`_clean_text_field` (insertion order preserved).  Note that the second
character of the pattern for the grave-accent letters is a plain space in
the source (`'Ã '`), and several patterns use punctuation characters from
the Latin-1 / General-Punctuation blocks. -/
def label_replacements : List (String × String) :=
  [("Ã¤", "ä"), ("Ã¶", "ö"), ("Ã¼", "ü"),
   ("Ã„", "Ä"), ("Ã–", "Ö"), ("Ãœ", "Ü"),
   ("ÃŸ", "ß"), ("Ã©", "é"), ("Ã¨", "è"),
   ("Ã¡", "á"), ("Ã ", "à"), ("Ã³", "ó"),
   ("Ã²", "ò"), ("Ãº", "ú"), ("Ã¹", "ù")]

/-- The extended table of `_clean_text_field`: the mojibake table followed
by the HTML entities, in source order. -/
def text_replacements : List (String × String) :=
  label_replacements ++
  [("&nbsp;", " "), ("&amp;", "&"), ("&lt;", "<"), ("&gt;", ">"),
   ("&quot;", "\""), ("&#39;", "\x27"), ("&apos;", "\x27")]

/-- Apply a replacement table sequentially, like the source's
`for wrong, correct in replacements.items(): text.replace(...)` loop. -/
def apply_replacements (table : List (String × String)) (s : String) : String :=
  table.foldl (fun acc pr => replace_all acc pr.1 pr.2) s

/-- One punctuation-spacing substitution such as `re.sub(r',(?!\s)', ', ', t)`.
`requireNext = true` models a `$` alternative inside the negative lookahead
(no replacement at end of string); `excludeDigit = true` models the `\d`
alternative used for the period. -/
def sub_punct (t : Char) (requireNext excludeDigit : Bool) : List Char → List Char
  | [] => []
  | c :: rest =>
    let doRep : Bool :=
      if c = t then
        match rest with
        | [] => !requireNext
        | n :: _ => !py_space n && (!excludeDigit || !digit_char n)
      else false
    if doRep then c :: ' ' :: sub_punct t requireNext excludeDigit rest
    else c :: sub_punct t requireNext excludeDigit rest

/-- Replacement of every whitespace run by a single space,
`re.sub(r'\s+', ' ', t)`.  Fuel-driven; callers pass the list length. -/
def collapse_ws_plus : Nat → List Char → List Char
  | 0, l => l
  | _ + 1, [] => []
  | fuel + 1, c :: rest =>
    if py_space c then ' ' :: collapse_ws_plus fuel (rest.dropWhile py_space)
    else c :: collapse_ws_plus fuel rest

/-- Replacement of whitespace runs of length at least two by a single
space, `re.sub(r'\s{2,}', ' ', t)`; single whitespace characters stay. -/
def collapse_ws_two : Nat → List Char → List Char
  | 0, l => l
  | _ + 1, [] => []
  | fuel + 1, c :: rest =>
    if py_space c then
      match rest with
      | n :: _ =>
        if py_space n then ' ' :: collapse_ws_two fuel (rest.dropWhile py_space)
        else c :: collapse_ws_two fuel rest
      | [] => [c]
    else c :: collapse_ws_two fuel rest

/-- The six punctuation substitutions plus whitespace collapse shared by
`_clean_text_field` (with `\s+`) and `_fix_comma_spacing` (with `\s{2,}`),
in source order: comma, period, semicolon, colon, exclamation, question. -/
def punct_pipeline (s : String) : List Char :=
  let l := s.data
  let l := sub_punct ',' false false l
  let l := sub_punct '.' true true l
  let l := sub_punct ';' false false l
  let l := sub_punct ':' true false l
  let l := sub_punct '!' true false l
  sub_punct '?' true false l

/-- Embedding of `_clean_label`: mojibake replacement, whitespace collapse
via `' '.join(label.split())`, empty-result filtering; increments
`encoding_issues_fixed` / `empty_labels_removed` and writes the change log
exactly where the source does. -/
def clean_label (st : CleanerState) (label : String) : Option String × CleanerState :=
  if label = "" then (none, st)
  else
    let original := label
    let replaced := apply_replacements label_replacements label
    let st :=
      if replaced ≠ original then
        { st with encoding_issues_fixed := st.encoding_issues_fixed + 1,
                  change_log := st.change_log ++
                    ["Label cleaned: \x27" ++ trunc120 (py_strip original) ++ "\x27 -> \x27" ++
                     trunc120 (py_strip replaced) ++ "\x27"] }
      else st
    let before_ws := replaced
    let joined := String.intercalate " " (py_split_ws replaced)
    let st :=
      if joined ≠ before_ws ∧ before_ws = original then
        { st with change_log := st.change_log ++
            ["Label normalized (whitespace): \x27" ++ trunc120 (py_strip before_ws) ++
             "\x27 -> \x27" ++ trunc120 (py_strip joined) ++ "\x27"] }
      else st
    if py_strip joined = "" then
      (none, { st with empty_labels_removed := st.empty_labels_removed + 1 })
    else (some joined, st)

end TTL

namespace TTL

/-- Embedding of `_clean_text_field`: the extended replacement table, the
six punctuation-spacing substitutions, `\s+` collapse, strip, change
tracking (`text_fields_cleaned`) and empty-result filtering. -/
def clean_text_field (st : CleanerState) (text : String) : Option String × CleanerState :=
  if text = "" then (none, st)
  else
    let original := text
    let replaced := apply_replacements text_replacements text
    let punct := punct_pipeline replaced
    let collapsed := collapse_ws_plus punct.length punct
    let final := py_strip ⟨collapsed⟩
    let st :=
      if final ≠ original then
        { st with text_fields_cleaned := st.text_fields_cleaned + 1,
                  change_log := st.change_log ++
                    ["Text field cleaned: \x27" ++ trunc120 (py_strip original) ++
                     "\x27 -> \x27" ++ trunc120 (py_strip final) ++ "\x27"] }
      else st
    if py_strip final = "" then
      (none, { st with empty_labels_removed := st.empty_labels_removed + 1 })
    else (some final, st)

/-- Embedding of `_fix_comma_spacing` (the second definition in the class,
which shadows the earlier one of the same name): punctuation-spacing
substitutions, `\s{2,}` collapse, strip; on any change it increments both
`comma_fixes` and `text_fields_cleaned` and logs. -/
def fix_comma_spacing (st : CleanerState) (text : String) : String × CleanerState :=
  if text = "" then (text, st)
  else
    let original := text
    let punct := punct_pipeline text
    let collapsed := collapse_ws_two punct.length punct
    let final := py_strip ⟨collapsed⟩
    if final ≠ original then
      (final, { st with comma_fixes := st.comma_fixes + 1,
                        text_fields_cleaned := st.text_fields_cleaned + 1,
                        change_log := st.change_log ++
                          ["Comma spacing fixed: \x27" ++ trunc120 (py_strip original) ++
                           "\x27 -> \x27" ++ trunc120 (py_strip final) ++ "\x27"] })
    else (final, st)

/-- Strip one pair of enclosing angle brackets, the
`if uri.startswith('<') and uri.endswith('>'): uri = uri[1:-1]` step. -/
def strip_angle_pair (s : String) : String :=
  if py_starts_with s "<" ∧ py_ends_with s ">" then ⟨(s.data.drop 1).dropLast⟩ else s

/-- Python `s.split(':', 1)` given that a colon occurs: the part before the
first colon and the part after it. -/
def split_first_colon (s : String) : String × String :=
  (⟨s.data.takeWhile (· ≠ ':')⟩, ⟨(s.data.dropWhile (· ≠ ':')).drop 1⟩)

/-- Embedding of `_clean_uri`.  Reads `base_uri` from the state; never
mutates it. -/
def clean_uri (st : CleanerState) (uri : String) : String :=
  let u := py_strip uri
  let u := strip_angle_pair u
  if py_starts_with u "http" then u
  else
    match st.base_uri with
    | some b =>
      if ¬ contains_char u ':' then rstrip_set ['/'] b ++ "/" ++ u
      else
        -- base set but the value has a colon: falls through to the
        -- prefixed-URI branch of the source's elif chain
        let pr := split_first_colon u
        if pr.1 = "esco" then "http://data.europa.eu/esco/skill/" ++ pr.2
        else "http://example.org/" ++ pr.1 ++ "/" ++ pr.2
    | none =>
      if contains_char u ':' then
        let pr := split_first_colon u
        if pr.1 = "esco" then "http://data.europa.eu/esco/skill/" ++ pr.2
        else "http://example.org/" ++ pr.1 ++ "/" ++ pr.2
      else "http://data.europa.eu/esco/skill/" ++ u

/-- Embedding of `_classify_uri_change`: returns `(is_fix, message)`; an
empty message means the change is suppressed entirely (neither counted nor
logged). -/
def classify_uri_change (st : CleanerState) (raw_uri cleaned_uri : String) :
    Bool × String :=
  let raw := py_strip raw_uri
  let bracketed := py_starts_with raw "<" ∧ py_ends_with raw ">"
  let raw_inner := if bracketed then ⟨(raw.data.drop 1).dropLast⟩ else raw
  if bracketed ∧ py_starts_with raw_inner "http" then
    (false, "URI normalized (angle brackets removed): " ++ raw)
  else if st.base_uri.isSome ∧ ¬ py_starts_with raw_inner "http" ∧
          ¬ contains_char raw_inner ':' then
    let b := st.base_uri.getD ""
    let expected := rstrip_set ['/'] b ++ "/" ++ strip_set ['<', '>'] raw_inner
    if expected = cleaned_uri then (false, "")
    else (false, "URI normalized using @base: " ++ raw ++ " -> <" ++ cleaned_uri ++ ">")
  else if contains_char raw_inner ':' ∧ ¬ py_starts_with raw_inner "http" then
    (true, "URI fixed: expanded prefix \x27" ++ raw_inner ++ "\x27 -> <" ++ cleaned_uri ++ ">")
  else if ¬ py_starts_with raw_inner "http" ∧ st.base_uri.isNone then
    (true, "URI fixed: added default namespace -> <" ++ cleaned_uri ++ "> from \x27" ++ raw ++ "\x27")
  else if raw ≠ raw_uri then
    (false, "URI normalized (whitespace trimmed): \x27" ++ raw_uri ++ "\x27 -> \x27" ++ raw ++ "\x27")
  else if raw ≠ cleaned_uri then
    (false, "URI normalized: " ++ raw ++ " -> <" ++ cleaned_uri ++ ">")
  else (false, "")

end TTL

namespace TTL

/-- Matching of the tail `\s+a\s+TYPE` of the concept-start pattern at the
head of `l` (whitespace may cross line breaks, as `\s` does). -/
def match_tail_decl (typeLit : List Char) (l : List Char) : Bool :=
  let ws1 := l.takeWhile py_space
  if ws1 = [] then false
  else
    match l.drop ws1.length with
    | 'a' :: r2 =>
      let ws2 := r2.takeWhile py_space
      ws2 ≠ [] && typeLit.isPrefixOf (r2.drop ws2.length)
    | _ => false

/-- Attempt of the anchored pattern
`(angle-bracketed URI | bare token)\s+a\s+TYPE` at the head of `l`,
returning capture group 1.  This is `re.match` of the source's
concept-start / scheme-start regular expressions. -/
def match_decl_at (typeLit : List Char) (l : List Char) : Option (List Char) :=
  match l with
  | '<' :: rest =>
    let inner := rest.takeWhile (· ≠ '>')
    if inner ≠ [] ∧ rest.drop inner.length ≠ [] then
      if match_tail_decl typeLit (rest.drop (inner.length + 1)) then
        some ('<' :: (inner ++ ['>']))
      else none
    else none
  | _ =>
    let run := l.takeWhile subj_char
    if run ≠ [] ∧ match_tail_decl typeLit (l.drop run.length) then some run
    else none

/-- Multiline `re.search` of the declaration pattern: the `^` anchor limits
candidate positions to the block start and every position following a
newline; the first matching position wins. -/
def search_decl (typeLit : List Char) : Nat → List Char → Option String
  | 0, _ => none
  | fuel + 1, l =>
    match match_decl_at typeLit l with
    | some g => some ⟨g⟩
    | none =>
      match l.dropWhile (· ≠ '\n') with
      | [] => none
      | _ :: rest => search_decl typeLit fuel rest

/-- Capture of one quoted literal with optional two-letter language tag. -/
structure QCap where
  text : String
  lang : Option String
  deriving DecidableEq, Repr

/-- Attempt of the fragment `"([^"]+)"(?:@([a-z]{2}))?` exactly at the head
of `l`.  The `[^"]+` class is greedy up to the closing quote and must be
non-empty; the optional group participates only when `@` is followed by two
lowercase ASCII letters (a longer tag is cut to its first two letters, a
non-matching tag leaves the group empty).  Returns the capture and the
remainder after the match. -/
def try_quoted_at (l : List Char) : Option (QCap × List Char) :=
  match l with
  | '"' :: rest =>
    let inner := rest.takeWhile (· ≠ '"')
    if inner ≠ [] ∧ rest.drop inner.length ≠ [] then
      let after := rest.drop (inner.length + 1)
      match after with
      | '@' :: c1 :: c2 :: r2 =>
        if low_char c1 && low_char c2 then some (⟨⟨inner⟩, some ⟨[c1, c2]⟩⟩, r2)
        else some (⟨⟨inner⟩, none⟩, after)
      | _ => some (⟨⟨inner⟩, none⟩, after)
    else none
  | _ => none

/-- Left-to-right non-overlapping `re.findall` of
`PRED\s+"([^"]+)"(?:@([a-z]{2}))?` : at every position where the literal
predicate occurs, require at least one whitespace character and the quoted
fragment; on success the scan continues after the match, on failure at the
next character. -/
def find_pred_quoted (pred : List Char) : Nat → List Char → List QCap
  | 0, _ => []
  | _ + 1, [] => []
  | fuel + 1, l@(_ :: t) =>
    if pred.isPrefixOf l then
      let after := l.drop pred.length
      let ws := after.takeWhile py_space
      if ws ≠ [] then
        match try_quoted_at (after.drop ws.length) with
        | some (cap, rest) => cap :: find_pred_quoted pred fuel rest
        | none => find_pred_quoted pred fuel t
      else find_pred_quoted pred fuel t
    else find_pred_quoted pred fuel t

/-- The `re.finditer(r'PRED\s+', block)` loop: for every non-overlapping
match of the literal predicate followed by (greedy) whitespace, return the
remainder of the block after the match, i.e. `block[m.end():]`. -/
def find_pred_ws_tails (pred : List Char) : Nat → List Char → List (List Char)
  | 0, _ => []
  | _ + 1, [] => []
  | fuel + 1, l@(_ :: t) =>
    if pred.isPrefixOf l then
      let after := l.drop pred.length
      let ws := after.takeWhile py_space
      if ws ≠ [] then
        let tl := after.drop ws.length
        tl :: find_pred_ws_tails pred fuel tl
      else find_pred_ws_tails pred fuel t
    else find_pred_ws_tails pred fuel t

/-- The segment `tail[:end]` delimited by the first `;` or `.`
(`re.search(r'[;\.]', tail)`), or the whole tail when neither occurs. -/
def segment_of (tl : List Char) : List Char :=
  tl.takeWhile (fun c => c ≠ ';' && c ≠ '.')

/-- Plain `re.findall(r'"([^"]+)"(?:@([a-z]{2}))?', segment)`. -/
def scan_quoted : Nat → List Char → List QCap
  | 0, _ => []
  | _ + 1, [] => []
  | fuel + 1, l@(_ :: t) =>
    match try_quoted_at l with
    | some (cap, rest) => cap :: scan_quoted fuel rest
    | none => scan_quoted fuel t

/-- The text-field predicates whose lines `_parse_multiline_properties`
skips. -/
def skip_patterns : List String :=
  ["skos:prefLabel", "skos:altLabel", "skos:definition", "skos:note",
   "skos:scopeNote", "skos:editorialNote", "skos:historyNote",
   "skos:changeNote", "skos:example"]

/-- The inner collection loop of `_parse_multiline_properties`: gather the
stripped lines of one property, skipping blank lines, until a line ending
in `;` or `.` (inclusive); returns the collected lines and the lines after
the property. -/
def collect_property : List String → List String × List String
  | [] => ([], [])
  | line :: rest =>
    let s := py_strip line
    if s = "" then collect_property rest
    else if py_ends_with s ";" ∨ py_ends_with s "." then ([s], rest)
    else
      let pr := collect_property rest
      (s :: pr.1, pr.2)

/-- Embedding of `_parse_multiline_properties` over the block's lines. -/
def parse_multiline_properties_aux : Nat → List String → List String
  | 0, _ => []
  | _ + 1, [] => []
  | fuel + 1, line :: rest =>
    let s := py_strip line
    if s = "" ∨ py_starts_with s "#" ∨ py_ends_with s "a skos:Concept ;" ∨ s = "." ∨
       py_starts_with s "http://" ∨ py_starts_with s "<" then
      parse_multiline_properties_aux fuel rest
    else if skip_patterns.any (fun p => contains_sub s p) then
      parse_multiline_properties_aux fuel rest
    else if contains_char s ':' then
      let pr := collect_property (line :: rest)
      let complete := String.intercalate " " pr.1
      let complete := py_strip (rstrip_set [' ', ';', '.', ','] complete)
      let props := parse_multiline_properties_aux fuel pr.2
      if complete ≠ "" ∧ contains_char complete ':' then complete :: props else props
    else parse_multiline_properties_aux fuel rest

/-- Embedding of `_parse_multiline_properties` on a raw block string. -/
def parse_multiline_properties (block : String) : List String :=
  let lines := split_lines block
  parse_multiline_properties_aux lines.length lines

end TTL

namespace TTL

/-- One step of the first label-extraction pass: clean the captured text
and append the surviving `(text, lang or 'en')` entry (no duplicate
check). -/
def labels_first_step (acc : List LPair × CleanerState) (cap : QCap) :
    List LPair × CleanerState :=
  let r := clean_label acc.2 cap.text
  match r.1 with
  | some cl => (acc.1 ++ [⟨cl, cap.lang.getD "en"⟩], r.2)
  | none => (acc.1, r.2)

/-- The first label-extraction pass
(`re.findall(r'PRED\s+"..."...', block)` plus `_clean_label`), appending
every surviving label without a duplicate check, as the source does. -/
def parse_labels_first (st : CleanerState) (pred : String) (bl : List Char) :
    List LPair × CleanerState :=
  (find_pred_quoted pred.data bl.length bl).foldl labels_first_step ([], st)

/-- One inner step of the multi-object label pass: clean the captured text
and append the entry unless the exact `(text, lang)` pair is already
present. -/
def labels_multi_step (acc : List LPair × CleanerState) (cap : QCap) :
    List LPair × CleanerState :=
  let r := clean_label acc.2 cap.text
  match r.1 with
  | some cl =>
    let entry : LPair := ⟨cl, cap.lang.getD "en"⟩
    if acc.1.contains entry then (acc.1, r.2) else (acc.1 ++ [entry], r.2)
  | none => (acc.1, r.2)

/-- One outer step of the multi-object label pass: scan the quoted literals
of the segment up to the first `;` or `.`. -/
def labels_multi_tail (acc : List LPair × CleanerState) (tl : List Char) :
    List LPair × CleanerState :=
  let seg := segment_of tl
  (scan_quoted seg.length seg).foldl labels_multi_step acc

/-- The second, comma-separated multi-object label pass: for every
`PRED\s+` occurrence, quoted literals of the segment up to the first `;` or
`.` are cleaned and appended only when the `(text, lang)` entry is not
already present. -/
def parse_labels_multi (st : CleanerState) (pred : String) (bl : List Char)
    (cur : List LPair) : List LPair × CleanerState :=
  (find_pred_ws_tails pred.data bl.length bl).foldl labels_multi_tail (cur, st)

/-- One step of the note-like text-field extraction. -/
def text_fields_step (acc : List LPair × CleanerState) (cap : QCap) :
    List LPair × CleanerState :=
  let r := clean_text_field acc.2 cap.text
  match r.1 with
  | some ct => (acc.1 ++ [⟨ct, cap.lang.getD "en"⟩], r.2)
  | none => (acc.1, r.2)

/-- Extraction of one of the seven note-like text fields
(`re.findall` plus `_clean_text_field`, no duplicate check). -/
def parse_text_fields (st : CleanerState) (pred : String) (bl : List Char) :
    List LPair × CleanerState :=
  (find_pred_quoted pred.data bl.length bl).foldl text_fields_step ([], st)

/-- The URI handling of `_parse_concept_block`: when the cleaned URI
differs from the raw token, classify the change; a non-empty message is
logged, counts either `malformed_uris_fixed` or `uri_normalizations`, and
produces the corresponding `issues` marker. -/
def uri_issue_step (st : CleanerState) (raw_uri : String) :
    List String × CleanerState :=
  let cleaned := clean_uri st raw_uri
  if raw_uri ≠ cleaned then
    let r := classify_uri_change st raw_uri cleaned
    if r.2 ≠ "" then
      ((if r.1 then ["URI fixed"] else ["URI normalized"]),
       { st with change_log := st.change_log ++ [r.2],
                 malformed_uris_fixed :=
                   st.malformed_uris_fixed + (if r.1 then 1 else 0),
                 uri_normalizations :=
                   st.uri_normalizations + (if r.1 then 0 else 1) })
    else (([] : List String), st)
  else (([] : List String), st)

/-- The two preferred-label passes of `_parse_concept_block` in sequence. -/
def pref_pipeline (st : CleanerState) (bl : List Char) :
    List LPair × CleanerState :=
  let pl1 := parse_labels_first st "skos:prefLabel" bl
  parse_labels_multi pl1.2 "skos:prefLabel" bl pl1.1

/-- The two alternate-label passes of `_parse_concept_block` in sequence. -/
def alt_pipeline (st : CleanerState) (bl : List Char) :
    List LPair × CleanerState :=
  let al1 := parse_labels_first st "skos:altLabel" bl
  parse_labels_multi al1.2 "skos:altLabel" bl al1.1

/-- Embedding of `_parse_concept_block`.  Returns the parsed concept (or
nothing) together with the updated state.  A block with no concept-type
declaration is rejected without touching any statistic (the source only
notes `'No URI found'` on the local record it then discards); a block whose
preferred-label extraction survives empty is rejected with
`concepts_without_preflabel` incremented. -/
def parse_concept_block (st : CleanerState) (block : String) :
    Option Concept × CleanerState :=
  let bl := block.data
  match search_decl "skos:Concept".data (bl.length + 1) bl with
  | none => (none, st)
  | some g =>
    let raw_uri := py_strip g
    let pr0 := uri_issue_step st raw_uri
    let pl2 := pref_pipeline pr0.2 bl
    let al2 := alt_pipeline pl2.2 bl
    let dfs := parse_text_fields al2.2 "skos:definition" bl
    let nts := parse_text_fields dfs.2 "skos:note" bl
    let sns := parse_text_fields nts.2 "skos:scopeNote" bl
    let ens := parse_text_fields sns.2 "skos:editorialNote" bl
    let hns := parse_text_fields ens.2 "skos:historyNote" bl
    let cns := parse_text_fields hns.2 "skos:changeNote" bl
    let exs := parse_text_fields cns.2 "skos:example" bl
    let props := parse_multiline_properties block
    if pl2.1 = [] then
      (none, { exs.2 with concepts_without_preflabel :=
                 exs.2.concepts_without_preflabel + 1 })
    else
      (some { uri := clean_uri st raw_uri, prefLabels := pl2.1, altLabels := al2.1,
              definitions := dfs.1, notes := nts.1, scopeNotes := sns.1,
              editorialNotes := ens.1, historyNotes := hns.1,
              changeNotes := cns.1, examples := exs.1,
              other_properties := props, raw_block := block, issues := pr0.1 },
       exs.2)

end TTL

namespace TTL

/-- One step of the `_split_into_concept_blocks` loop; the accumulator is
`(blocks, current_block)`. -/
def split_blocks_step (acc : List String × List String) (line : String) :
    List String × List String :=
  if (match_decl_at "skos:Concept".data line.data).isSome then
    (if acc.2 ≠ [] then acc.1 ++ [String.intercalate "\n" acc.2] else acc.1, [line])
  else if line = "." ∧ acc.2 ≠ [] then
    (acc.1 ++ [String.intercalate "\n" (acc.2 ++ [line])], [])
  else if acc.2 ≠ [] then (acc.1, acc.2 ++ [line])
  else acc

/-- Embedding of `_split_into_concept_blocks`: strip lines, drop blanks and
comment lines, then group lines into blocks opened by a concept-start line
and closed by a lone `.` line; trailing content is flushed as a final
block. -/
def split_into_concept_blocks (content : String) : List String :=
  let lines := ((split_lines content).map py_strip).filter
    (fun l => l ≠ "" ∧ ¬ py_starts_with l "#")
  let acc := lines.foldl split_blocks_step ([], [])
  if acc.2 ≠ [] then acc.1 ++ [String.intercalate "\n" acc.2] else acc.1

/-- Scanner for `re.search(r'(@base\s+<[^>]+>\s*\.)', content)`: the full
matched declaration and the bracketed URI. -/
def find_base_at (l : List Char) : Option (String × String) :=
  if "@base".data.isPrefixOf l then
    let after := l.drop 5
    let ws := after.takeWhile py_space
    if ws ≠ [] then
      match after.drop ws.length with
      | '<' :: rest =>
        let inner := rest.takeWhile (· ≠ '>')
        if inner ≠ [] ∧ rest.drop inner.length ≠ [] then
          let after2 := rest.drop (inner.length + 1)
          let ws2 := after2.takeWhile py_space
          match after2.drop ws2.length with
          | '.' :: _ =>
            some (⟨"@base".data ++ ws ++ '<' :: (inner ++ ['>']) ++ ws2 ++ ['.']⟩, ⟨inner⟩)
          | _ => none
        else none
      | _ => none
    else none
  else none

/-- Left-to-right scan for the first `@base` declaration. -/
def search_base : Nat → List Char → Option (String × String)
  | 0, _ => none
  | _ + 1, [] => none
  | fuel + 1, l@(_ :: t) =>
    match find_base_at l with
    | some r => some r
    | none => search_base fuel t

/-- Embedding of `_extract_base_uri` (combined with the second regex that
re-extracts the inner URI): sets `base_declaration` and returns the base
URI when a declaration is found. -/
def extract_base_uri (st : CleanerState) (content : String) :
    Option String × CleanerState :=
  match search_base content.data.length content.data with
  | some (decl, inner) => (some inner, { st with base_declaration := some decl })
  | none => (none, st)

/-- One step of the `_extract_metadata` loop; the accumulator is
`(concept_scheme, in_concept_scheme, current_block)`. -/
def extract_metadata_step (acc : Option String × Bool × List String) (line : String) :
    Option String × Bool × List String :=
  let s := py_strip line
  if s = "" ∨ py_starts_with s "#" then acc
  else if contains_sub s "a skos:ConceptScheme" then (acc.1, true, [s])
  else if acc.2.1 then
    let blockL := acc.2.2 ++ [s]
    if py_ends_with s " ." then
      (some (String.intercalate "\n    " blockL), false, [])
    else (acc.1, true, blockL)
  else acc

/-- Embedding of `_extract_metadata`: capture the (last) ConceptScheme
block into `concept_scheme`. -/
def extract_metadata (st : CleanerState) (content : String) : CleanerState :=
  let acc := (split_lines content).foldl extract_metadata_step (st.concept_scheme, false, [])
  { st with concept_scheme := acc.1 }

/-- One step of the `_extract_concepts` parse loop: parse the block and
keep the concept when parsing succeeds. -/
def extract_step (acc : List Concept × CleanerState) (block : String) :
    List Concept × CleanerState :=
  let r := parse_concept_block acc.2 block
  match r.1 with
  | some c => (acc.1 ++ [c], r.2)
  | none => (acc.1, r.2)

/-- Embedding of `_extract_concepts`: extract the base URI and metadata,
split into blocks, record the block count in `total_concepts` (assignment,
not increment), and parse every block, keeping the successful ones. -/
def extract_concepts (st : CleanerState) (content : String) :
    List Concept × CleanerState :=
  let pr := extract_base_uri st content
  let st := { pr.2 with base_uri := pr.1 }
  let st := extract_metadata st content
  let blocks := split_into_concept_blocks content
  let st := { st with total_concepts := blocks.length }
  blocks.foldl extract_step ([], st)

/-- The deduplication loop of `_clean_concepts`, carrying the set of seen
URIs.  (The source also computes `uri_counts` and `uri_groups` before this
loop, but never uses them for the result.) -/
def clean_concepts_aux (seen : List String) (st : CleanerState) :
    List Concept → List Concept × CleanerState
  | [] => ([], st)
  | c :: rest =>
    if c.uri ∈ seen then
      clean_concepts_aux seen
        { st with duplicates_removed := st.duplicates_removed + 1,
                  change_log := st.change_log ++ ["Duplicate removed: " ++ c.uri] }
        rest
    else
      let pr := clean_concepts_aux (c.uri :: seen) st rest
      (c :: pr.1, pr.2)

/-- Embedding of `_clean_concepts`: first-seen-wins deduplication by URI;
every dropped record counts one `duplicates_removed` and one log entry. -/
def clean_concepts (st : CleanerState) (cs : List Concept) :
    List Concept × CleanerState :=
  clean_concepts_aux [] st cs

end TTL

namespace TTL

/-- Formatting of one label / note list in `_format_concept`: each text
runs through `_fix_comma_spacing` and the per-kind statistic is bumped. -/
def format_pairs (pred : String) (bump : CleanerState → CleanerState)
    (acc : List String × CleanerState) (pairs : List LPair) :
    List String × CleanerState :=
  pairs.foldl
    (fun a p =>
      let lang_tag := if p.lang ≠ "" then "@" ++ p.lang else ""
      let r := fix_comma_spacing a.2 p.text
      (a.1 ++ [pred ++ " \"" ++ r.1 ++ "\"" ++ lang_tag], bump r.2))
    acc

/-- Attach the `;` / `.` separators of `_format_concept` (the final
property gets the statement terminator). -/
def sep_lines : List String → List String
  | [] => []
  | [p] => ["    " ++ p ++ " ."]
  | p :: rest => ("    " ++ p ++ " ;") :: sep_lines rest

/-- Embedding of `_format_concept`: the subject line (re-relativized
against the base URI when applicable), the eight text-valued property
families, then the opaque properties with trailing punctuation stripped. -/
def format_concept (st : CleanerState) (c : Concept) : String × CleanerState :=
  let head :=
    match st.base_uri with
    | some b =>
      if py_starts_with c.uri b then
        "<" ++ (⟨c.uri.data.drop b.length⟩ : String) ++ "> a skos:Concept ;"
      else c.uri ++ " a skos:Concept ;"
    | none => c.uri ++ " a skos:Concept ;"
  let bumpL := fun (s : CleanerState) => { s with labels_processed := s.labels_processed + 1 }
  let bumpD := fun (s : CleanerState) => { s with definitions_processed := s.definitions_processed + 1 }
  let bumpN := fun (s : CleanerState) => { s with notes_processed := s.notes_processed + 1 }
  let a := format_pairs "skos:prefLabel" bumpL ([], st) c.prefLabels
  let a := format_pairs "skos:altLabel" bumpL a c.altLabels
  let a := format_pairs "skos:definition" bumpD a c.definitions
  let a := format_pairs "skos:note" bumpN a c.notes
  let a := format_pairs "skos:scopeNote" bumpN a c.scopeNotes
  let a := format_pairs "skos:editorialNote" bumpN a c.editorialNotes
  let a := format_pairs "skos:historyNote" bumpN a c.historyNotes
  let a := format_pairs "skos:changeNote" bumpN a c.changeNotes
  let a := format_pairs "skos:example" id a c.examples
  let others := c.other_properties.filterMap
    (fun p =>
      let cp := py_strip (rstrip_set [' ', ';', '.', ','] p)
      if cp ≠ "" then some cp else none)
  let all_props := a.1 ++ others
  (String.intercalate "\n" (head :: sep_lines all_props), a.2)

/-- Embedding of `_generate_cleaned_content`: the `@base` declaration, the
original `@prefix` lines (or the default pair), the ConceptScheme block,
and the formatted concepts, each followed by a blank line. -/
def generate_cleaned_content (st : CleanerState) (cs : List Concept)
    (original : String) : String × CleanerState :=
  let pres := ((split_lines original).filter
    (fun l => py_starts_with (py_strip l) "@prefix")).map py_strip
  let lines0 : List String := match st.base_declaration with
    | some d => [d]
    | none => []
  let lines1 :=
    if pres ≠ [] then lines0 ++ pres ++ [""]
    else lines0 ++ ["@prefix skos: <http://www.w3.org/2004/02/skos/core#> .",
                    "@prefix esco: <http://data.europa.eu/esco/> .", ""]
  let lines2 := match st.concept_scheme with
    | some sch => lines1 ++ [sch, ""]
    | none => lines1
  let pr := cs.foldl
    (fun acc c =>
      let r := format_concept acc.2 c
      (acc.1 ++ [r.1, ""], r.2))
    (lines2, st)
  (String.intercalate "\n" pr.1, pr.2)

/-- Embedding of `clean_file` (the extract-clean-serialize pipeline without
the file reading / report writing around it): extract concepts, deduplicate
via `_clean_concepts`, and generate the cleaned content.  An empty input is
returned unchanged, as in the source. -/
def clean_file_core (st : CleanerState) (content : String) :
    String × CleanerState :=
  if content = "" then (content, st)
  else
    let pr := extract_concepts st content
    let pr2 := clean_concepts pr.2 pr.1
    generate_cleaned_content pr2.2 pr2.1 content

end TTL

namespace TTL

/-- Test for the regex language `\d+(?:-\d+)*` : non-empty hyphen-separated
groups of ASCII digits. -/
def is_code_suffix (l : List Char) : Bool :=
  l ≠ [] && (split_on_char '-' l).all (fun g => g ≠ [] && g.all digit_char)

/-- The leftmost position whose suffix matches `\d+(?:-\d+)*$`, i.e. the
longest such suffix (this is what `re.search` with the `$` anchor finds). -/
def longest_code_suffix : List Char → Option (List Char)
  | [] => none
  | l@(_ :: t) => if is_code_suffix l then some l else longest_code_suffix t

/-- Embedding of `_extract_numeric_code`: strip, remove one enclosing
bracket pair, take the last path segment when a slash occurs, then the
trailing code token. -/
def extract_numeric_code (uri_or_token : String) : Option String :=
  if uri_or_token = "" then none
  else
    let s := py_strip uri_or_token
    let s := if py_starts_with s "<" ∧ py_ends_with s ">" then
      (⟨(s.data.drop 1).dropLast⟩ : String) else s
    let s := if contains_char s '/' then
      ((split_on_char '/' (rstrip_set ['/'] s).data).map (fun l => (⟨l⟩ : String))).getLast?.getD ""
      else s
    (longest_code_suffix s.data).map (fun l => ⟨l⟩)

/-- Embedding of `_code_prefixes`: the segment-wise left truncations of a
hyphenated code (longest first), the digit-wise truncations of its leading
segment, or the digit-wise truncations of a plain digit code, deduplicated
preserving order. -/
def code_prefixes (code : String) : List String :=
  if code = "" then []
  else
    let raw : List String :=
      if contains_char code '-' then
        let parts := (split_on_char '-' code.data).map (fun l => (⟨l⟩ : String))
        let segs := ((List.range (parts.length - 1)).reverse.map
          (fun i => String.intercalate "-" (parts.take (i + 1))))
        let first := parts.headD ""
        let falls :=
          if first.data ≠ [] && first.data.all digit_char && 1 < first.length then
            ((List.range (first.length - 1)).reverse.map
              (fun k => (⟨first.data.take (k + 1)⟩ : String)))
          else []
        segs ++ falls
      else
        if code.data.all digit_char && 1 < code.length then
          ((List.range (code.length - 1)).reverse.map
            (fun k => (⟨code.data.take (k + 1)⟩ : String)))
        else []
    dedup_first_order raw

/-- Embedding of `_extract_uri_from_property`: the first angle-bracketed
token, re-wrapped in brackets. -/
def extract_uri_from_property (prop : String) : Option String :=
  let rest := prop.data.dropWhile (· ≠ '<')
  match rest with
  | '<' :: r =>
    let inner := r.takeWhile (· ≠ '>')
    if r.drop inner.length ≠ [] ∧ inner ≠ [] then some ("<" ++ (⟨inner⟩ : String) ++ ">")
    else none
  | _ => none

/-- Scanner for `re.findall(r'<([^>]+)>', prop)`. -/
def find_bracketed : Nat → List Char → List String
  | 0, _ => []
  | _ + 1, [] => []
  | fuel + 1, c :: t =>
    if c = '<' then
      let inner := t.takeWhile (· ≠ '>')
      if inner ≠ [] ∧ t.drop inner.length ≠ [] then
        (⟨inner⟩ : String) :: find_bracketed fuel (t.drop (inner.length + 1))
      else find_bracketed fuel t
    else find_bracketed fuel t

/-- Embedding of `_extract_uris_from_property`: all bracketed tokens,
re-wrapped in brackets. -/
def extract_uris_from_property (prop : String) : List String :=
  if prop = "" then []
  else (find_bracketed prop.data.length prop.data).map (fun u => "<" ++ u ++ ">")

/-- The `code_to_uri` map of the autofix / hierarchy-gap passes: an
association list in concept order (Python dict: last assignment wins on
lookup, handled by `lookup_last`). -/
def build_code_to_uri (cs : List Concept) : List (String × String) :=
  cs.filterMap (fun c => (extract_numeric_code c.uri).map (fun code => (code, c.uri)))

/-- The `uri_to_code` companion map. -/
def build_uri_to_code (cs : List Concept) : List (String × String) :=
  cs.filterMap (fun c => (extract_numeric_code c.uri).map (fun code => (c.uri, code)))

/-- Python dict lookup on an assignment list: the last binding wins. -/
def lookup_last (m : List (String × String)) (k : String) : Option String :=
  (m.reverse.find? (fun pr => pr.1 = k)).map (fun pr => pr.2)

/-- The key set of `code_to_uri`. -/
def all_codes (cs : List Concept) : List String := (build_code_to_uri cs).map (·.1)

/-- The `broader_map` construction shared by the autofixer and the
hierarchy-gap validator: for every concept whose URI has a code, the codes
of the targets of its `skos:broader` statements, keyed by the concept's
code.  Note the key is the code, so concepts sharing a code pool their
broader targets. -/
def broader_pairs (cs : List Concept) : List (String × String) :=
  cs.flatMap (fun c =>
    match lookup_last (build_uri_to_code cs) c.uri with
    | none => []
    | some src =>
      c.other_properties.flatMap (fun p =>
        if contains_sub p "skos:broader " then
          (extract_uris_from_property p).filterMap
            (fun t => (extract_numeric_code t).map (fun tc => (src, tc)))
        else []))

/-- The entries of `broader_map[code]`. -/
def broader_codes_of (cs : List Concept) (code : String) : List String :=
  (broader_pairs cs).filterMap (fun pr => if pr.1 = code then some pr.2 else none)

/-- Whether the autofix loop adds a broader link to this concept: its URI
has a code with at least one candidate prefix existing in the graph, no
pooled broader target hits a candidate, and the exact triple string is not
already present. -/
def autofix_adds (cs : List Concept) (c : Concept) : Bool :=
  match lookup_last (build_uri_to_code cs) c.uri with
  | none => false
  | some code =>
    let pres := code_prefixes code
    if pres = [] then false
    else
      let cands := pres.filter (fun p => (all_codes cs).contains p)
      match cands with
      | [] => false
      | ch :: ct =>
        if (broader_codes_of cs code).any (fun b => b ∈ ch :: ct) then false
        else
          let parent_code := max_by_len ch ct
          let parent_uri := (lookup_last (build_code_to_uri cs) parent_code).getD ""
          let triple := "skos:broader <" ++ strip_set ['<', '>'] parent_uri ++ ">"
          decide (triple ∉ c.other_properties)

/-- The triple appended by the autofix loop for a concept it decides to fix. -/
def autofix_triple (cs : List Concept) (c : Concept) : String :=
  match lookup_last (build_uri_to_code cs) c.uri with
  | none => ""
  | some code =>
    let cands := (code_prefixes code).filter (fun p => (all_codes cs).contains p)
    match cands with
    | [] => ""
    | ch :: ct =>
      let parent_code := max_by_len ch ct
      let parent_uri := (lookup_last (build_code_to_uri cs) parent_code).getD ""
      "skos:broader <" ++ strip_set ['<', '>'] parent_uri ++ ">"

/-- The per-concept step of the autofix loop (the maps are built before the
loop, so each concept is handled independently of in-loop mutations). -/
def autofix_step (cs : List Concept) (c : Concept) : Concept :=
  if autofix_adds cs c then
    { c with other_properties := c.other_properties ++ [autofix_triple cs c] }
  else c

/-- The log line written for each added broader link. -/
def autofix_log_line (cs : List Concept) (c : Concept) : String :=
  let code := (lookup_last (build_uri_to_code cs) c.uri).getD ""
  let cands := (code_prefixes code).filter (fun p => (all_codes cs).contains p)
  let parent_code := match cands with | [] => "" | ch :: ct => max_by_len ch ct
  let parent_uri := (lookup_last (build_code_to_uri cs) parent_code).getD ""
  "Autofix: added skos:broader <" ++ strip_set ['<', '>'] parent_uri ++ "> to <" ++
    c.uri ++ "> based on code " ++ code

/-- Embedding of `_apply_hierarchy_autofix`: build the code maps and the
pooled broader map, then for each concept add the missing
`skos:broader <parent>` statement to the longest existing candidate.
Returns the updated concepts, the number of added links, and the state with
the log lines appended.  When no concept has a code the function returns
immediately with zero additions. -/
def apply_hierarchy_autofix (st : CleanerState) (cs : List Concept) :
    List Concept × Nat × CleanerState :=
  if build_code_to_uri cs = [] then (cs, 0, st)
  else
    (cs.map (autofix_step cs),
     cs.countP (autofix_adds cs),
     { st with change_log := st.change_log ++
        (cs.filterMap (fun c =>
          if autofix_adds cs c then some (autofix_log_line cs c) else none)) })

end TTL

namespace TTL

/-- Scheme-name characters accepted by `urllib.parse` (letters, digits,
plus, minus, dot). -/
def scheme_char (c : Char) : Bool := alnum_char c || c = '+' || c = '-' || c = '.'

/-- Embedding of `_is_valid_uri`: strip angle brackets, run the
`urllib.parse.urlparse` split (a scheme requires a leading ASCII letter and
scheme characters before the first colon; a netloc requires a leading `//`
and extends to the next `/`, `?` or `#`; a bracket-mismatched netloc raises
and the source's `except` turns that into `False`), and require both a
scheme and a netloc. -/
def is_valid_uri (uri : String) : Bool :=
  let l := (strip_set ['<', '>'] uri).data
  let front := l.takeWhile (· ≠ ':')
  let hasScheme := l.drop front.length ≠ [] && front ≠ [] &&
    (front.headD ' ').isAlpha && front.all scheme_char
  let rest := if hasScheme then l.drop (front.length + 1) else l
  let netloc :=
    match rest with
    | '/' :: '/' :: r => r.takeWhile (fun c => c ≠ '/' && c ≠ '?' && c ≠ '#')
    | _ => []
  let brMismatch := (netloc.contains '[' && !netloc.contains ']') ||
    (netloc.contains ']' && !netloc.contains '[')
  if brMismatch then false else hasScheme && netloc ≠ []

/-- The `(-[A-Za-z0-9]{1,8})*$` subtag part of the language-tag pattern. -/
def subtags_match : Nat → List Char → Bool
  | 0, l => l.isEmpty
  | _ + 1, [] => true
  | fuel + 1, c :: r =>
    if c = '-' then
      let run := r.takeWhile alnum_char
      if run ≠ [] ∧ run.length ≤ 8 then subtags_match fuel (r.drop run.length)
      else false
    else false

/-- Embedding of `_is_valid_language_tag` :
`re.match(r'^[a-z]{2,3}(-[A-Za-z0-9]{1,8})*$', tag)`.  The greedy
`[a-z]{2,3}` tries three letters first and falls back to two. -/
def is_valid_language_tag (tag : String) : Bool :=
  if tag = "" then false
  else
    match tag.data with
    | c1 :: c2 :: rest =>
      low_char c1 && low_char c2 &&
        (match rest with
         | c3 :: rest2 =>
           (low_char c3 && subtags_match rest2.length rest2) ||
             subtags_match rest.length rest
         | [] => true)
    | _ => false

/-- First-occurrence deduplication of string pairs (`set` insertion
order fixed to first occurrence, see the module comment). -/
def dedup_pairs (l : List (String × String)) : List (String × String) :=
  l.foldl (fun acc x => if acc.contains x then acc else acc ++ [x]) []

/-- The S14 messages of one concept: more than one prefLabel per language
tag (languages iterated in first-occurrence order, as the `lang_counts`
dict does). -/
def s14_msgs (c : Concept) : List String :=
  (dedup_first_order (c.prefLabels.map (·.lang))).filterMap
    (fun lang =>
      let texts := (c.prefLabels.filter (fun p => p.lang = lang)).map (·.text)
      if 1 < texts.length then
        some ("S14 Violation: <" ++ c.uri ++ "> has " ++ toString texts.length ++
          " prefLabels for language \x27" ++ lang ++ "\x27: " ++
          String.intercalate ", " (texts.map (fun t => "\"" ++ t ++ "\"")) ++
          ". Suggestion: Keep only one prefLabel per language, move others to altLabel.")
      else none)

/-- The S13 message of one concept: overlap between the prefLabel and
altLabel `(text, lang)` sets.  The source also tests overlaps against a
`hidden_set` that is always empty (hidden labels are never parsed), so
those two messages can never be produced and are omitted here. -/
def s13_msgs (c : Concept) : List String :=
  let prefS := dedup_pairs (c.prefLabels.map (fun p => (p.text, p.lang)))
  let altS := dedup_pairs (c.altLabels.map (fun p => (p.text, p.lang)))
  let overlap := prefS.filter (fun pr => altS.contains pr)
  if overlap ≠ [] then
    ["S13 Violation: <" ++ c.uri ++ "> has overlapping prefLabel/altLabel: " ++
     String.intercalate ", " (overlap.map (fun pr => "\"" ++ pr.1 ++ "\"@" ++ pr.2)) ++
     ". Suggestion: Remove duplicate from altLabel or use different preferred term."]
  else []

/-- The per-label quality warnings of `_validate_skos_integrity`. -/
def label_quality_warnings (c : Concept) : List String :=
  (c.prefLabels ++ c.altLabels).flatMap (fun lb =>
    (if 500 < lb.text.length then
      ["Very long label (" ++ toString lb.text.length ++ " chars) in <" ++ c.uri ++
       ">: \x27" ++ (⟨lb.text.data.take 50⟩ : String) ++
       "...\x27. Suggestion: Consider shortening or using skos:definition for detailed descriptions."]
     else []) ++
    (if lb.text = "" then
      ["Empty label in <" ++ c.uri ++ ">. Suggestion: Remove empty label or provide meaningful text."]
     else []) ++
    (if ["Ã¤", "Ã¶", "Ã¼", "ÃŸ"].any (fun ch => contains_sub lb.text ch) then
      ["Potential encoding issue in <" ++ c.uri ++ ">: \x27" ++ lb.text ++
       "\x27. Suggestion: Check UTF-8 encoding of source data."]
     else []) ++
    (if py_starts_with (ascii_lower lb.text) "http://" ||
        py_starts_with (ascii_lower lb.text) "https://" then
      ["Label looks like URI in <" ++ c.uri ++ ">: \x27" ++ lb.text ++
       "\x27. Suggestion: Use skos:exactMatch for URI mappings instead."]
     else []))

/-- Embedding of `_validate_skos_integrity` (rule family 1). -/
def validate_skos_integrity (cs : List Concept) : List String × List String :=
  (cs.flatMap (fun c => s14_msgs c ++ s13_msgs c),
   cs.flatMap label_quality_warnings)

/-- The relation-collection loop of `_validate_semantic_relations`: per
opaque property the `skos:broader ` test comes first, `skos:related ` only
as an `elif`. -/
def semantic_rel_pairs (cs : List Concept) :
    List (String × String) × List (String × String) :=
  cs.foldl
    (fun acc c =>
      c.other_properties.foldl
        (fun a p =>
          if contains_sub p "skos:broader " then
            (a.1 ++ (extract_uris_from_property p).filterMap
              (fun t => if t ≠ "" then some (c.uri, t) else none), a.2)
          else if contains_sub p "skos:related " then
            (a.1, a.2 ++ (extract_uris_from_property p).filterMap
              (fun t => if t ≠ "" then some (c.uri, t) else none))
          else a)
        acc)
    ([], [])

/-- Embedding of `_validate_semantic_relations` (rule family 2):
broader/related conflicts are violations, two-node mutual-broader cycles
are warnings. -/
def validate_semantic_relations (cs : List Concept) : List String × List String :=
  let pr := semantic_rel_pairs cs
  let confl := (dedup_pairs pr.1).filter (fun x => pr.2.contains x)
  (confl.map (fun x =>
     "S27 Violation: <" ++ x.1 ++ "> has both skos:broader and skos:related to <" ++
     x.2 ++ ">. Suggestion: Use either broader or related, but not both for the same concept pair."),
   pr.1.filterMap (fun x =>
     if pr.1.contains (x.2, x.1) then
       some ("Simple cycle detected: <" ++ x.1 ++ "> and <" ++ x.2 ++
         "> are mutually broader. Suggestion: Remove one of the broader relations to create a proper hierarchy.")
     else none))

/-- Embedding of `_validate_datatypes_and_uris` (rule family 3): invalid
URIs are violations, invalid-looking language tags of pref/alt labels are
warnings. -/
def validate_datatypes_and_uris (cs : List Concept) : List String × List String :=
  (cs.flatMap (fun c =>
     if ¬ is_valid_uri c.uri then ["Invalid URI format: " ++ c.uri] else []),
   cs.flatMap (fun c =>
     (c.prefLabels ++ c.altLabels).filterMap (fun lb =>
       if lb.lang ≠ "" ∧ ¬ is_valid_language_tag lb.lang then
         some ("Potentially invalid language tag \x27" ++ lb.lang ++ "\x27 in " ++ c.uri)
       else none)))

/-- The SKOS-XL label predicates searched in `other_properties`. -/
def xl_preds : List String := ["skosxl:prefLabel", "skosxl:altLabel", "skosxl:hiddenLabel"]

/-- Embedding of `_validate_skos_xl_labels` (rule family 4, flag-gated).
The `xl_label_uris` set evolves during the scan, so the orphan check sees
only the XL URIs collected so far, as in the source.  Violations are always
empty. -/
def validate_skos_xl_labels (st : CleanerState) (cs : List Concept) :
    List String × List String :=
  if ¬ st.enable_skos_xl then ([], [])
  else
    let res := cs.foldl
      (fun (acc : List String × List String) c =>
        c.other_properties.foldl
          (fun a p =>
            if xl_preds.any (fun xp => contains_sub p xp) then
              match extract_uri_from_property p with
              | some xl =>
                (if a.1.contains xl then a.1 else a.1 ++ [xl],
                 a.2 ++
                   (if (cs.map Concept.uri).contains xl then
                     ["SKOS-XL label URI <" ++ xl ++ "> conflicts with concept URI in <" ++
                      c.uri ++ ">. Suggestion: Use different namespace for XL labels."]
                    else []))
              | none => a
            else if contains_sub p "skosxl:literalForm" then
              if ¬ a.1.contains c.uri then
                (a.1, a.2 ++ ["Orphaned SKOS-XL label <" ++ c.uri ++
                  "> not referenced by any concept. Suggestion: Link to concept via skosxl:prefLabel/altLabel/hiddenLabel."])
              else a
            else a)
          acc)
      ([], [])
    ([], res.2)

end TTL

namespace TTL

/-- The `narrower_map` of `_validate_hierarchy_gaps`: like the broader map,
but from the `elif` branch, so a property containing `skos:broader ` never
contributes narrower pairs. -/
def hg_narrower_pairs (cs : List Concept) : List (String × String) :=
  cs.flatMap (fun c =>
    match lookup_last (build_uri_to_code cs) c.uri with
    | none => []
    | some src =>
      c.other_properties.flatMap (fun p =>
        if contains_sub p "skos:broader " then []
        else if contains_sub p "skos:narrower " then
          (extract_uris_from_property p).filterMap
            (fun t => (extract_numeric_code t).map (fun tc => (src, tc)))
        else []))

/-- The entries of `narrower_map[code]`. -/
def narrower_codes_of (cs : List Concept) (code : String) : List String :=
  (hg_narrower_pairs cs).filterMap (fun pr => if pr.1 = code then some pr.2 else none)

/-- Python `repr` of a list of strings as rendered by an f-string
(`{candidate_uris}`); the plain single-quote form, which is exact for
strings without quote characters. -/
def py_repr_list (l : List String) : String :=
  "[" ++ String.intercalate ", " (l.map (fun s => "\x27" ++ s ++ "\x27")) ++ "]"

/-- The hierarchy-gap warnings of one `(code, uri)` item: one warning per
candidate prefix code that exists in no concept. -/
def hg_gap_warnings (acodes : List String) (code uri : String) : List String :=
  (code_prefixes code).filterMap (fun pp =>
    if ¬ acodes.contains pp then
      some ("Hierarchy gap: <" ++ uri ++ "> (code " ++ code ++
        ") is missing intermediate level concept \x27" ++ pp ++
        "\x27. Suggestion: Add concept \x27" ++ pp ++
        "\x27 or adjust codes to reflect intended hierarchy.")
    else none)

/-- The inconsistent-hierarchy violation of one `(code, uri)` item: fired
when candidate prefixes exist but none is referenced by a broader target. -/
def hg_violation (cs : List Concept) (acodes : List String) (code uri : String) :
    List String :=
  let pres := code_prefixes code
  let cands := dedup_first_order (pres.filter (fun p => acodes.contains p))
  let bcodes := broader_codes_of cs code
  if cands ≠ [] ∧ ¬ bcodes.any (fun b => cands.contains b) then
    let broader_uris :=
      match (sort_strs (dedup_first_order bcodes)).map
        (fun bc => (lookup_last (build_code_to_uri cs) bc).getD ("<" ++ bc ++ ">")) with
      | [] => ["—"]
      | xs => xs
    let candidate_uris := (sort_strs cands).map
      (fun cc => (lookup_last (build_code_to_uri cs) cc).getD ("<" ++ cc ++ ">"))
    ["Inconsistent hierarchy: <" ++ uri ++ "> (code " ++ code ++
     ") has no skos:broader to any prefix among " ++ py_repr_list candidate_uris ++
     ". Found broader targets: " ++ String.intercalate ", " broader_uris ++
     ". Suggestion: Add a skos:broader to one of its prefix concepts (e.g., " ++
     candidate_uris.headD "" ++ ")."]
  else []

/-- The info-level findings of one `(code, uri)` item: for every broader
target that is an existing candidate prefix, a missing reverse
`skos:narrower` is reported when the flag is set. -/
def hg_infos (warn_flag : Bool) (cs : List Concept) (acodes : List String)
    (code uri : String) : List String :=
  let pres := code_prefixes code
  let cands := pres.filter (fun p => acodes.contains p)
  let bcodes := broader_codes_of cs code
  (dedup_first_order (bcodes.filter (fun b => cands.contains b))).filterMap
    (fun parent_code =>
      let parent_uri := (lookup_last (build_code_to_uri cs) parent_code).getD
        ("<" ++ parent_code ++ ">")
      if warn_flag ∧ ¬ (narrower_codes_of cs parent_code).contains code then
        some ("Parent missing skos:narrower: " ++ parent_uri ++ " should include <" ++
          uri ++ "> (code " ++ code ++
          ") as narrower. Suggestion: Add \x27skos:narrower <" ++ uri ++ ">\x27 to parent.")
      else none)

/-- Embedding of `_validate_hierarchy_gaps` (rule family 5).  Returns
`(violations, warnings, infos)`; the source appends the infos to
`self.validation_infos` before returning the pair, which the drivers below
mirror by taking the third component. -/
def validate_hierarchy_gaps (warn_flag : Bool) (cs : List Concept) :
    List String × List String × List String :=
  let c2u := build_code_to_uri cs
  if c2u = [] then ([], [], [])
  else
    let acodes := all_codes cs
    let items := (dedup_first_order (c2u.map (·.1))).map
      (fun k => (k, (lookup_last c2u k).getD ""))
    (items.flatMap (fun it => hg_violation cs acodes it.1 it.2),
     items.flatMap (fun it => hg_gap_warnings acodes it.1 it.2),
     items.flatMap (fun it => hg_infos warn_flag cs acodes it.1 it.2))

/-- The `skos:inScheme` scheme tokens of a concept URI (bracketed, set with
first-insertion order), pooled over every concept record with that URI. -/
def in_scheme_list (cs : List Concept) (uri : String) : List String :=
  dedup_first_order ((cs.filter (fun c => c.uri ≠ "" ∧ c.uri = uri)).flatMap
    (fun c => c.other_properties.flatMap (fun p =>
      if contains_sub p "skos:inScheme " then
        (extract_uris_from_property p).filter (· ≠ "")
      else [])))

/-- The `skos:topConceptOf` scheme tokens of a concept URI. -/
def top_of_list (cs : List Concept) (uri : String) : List String :=
  dedup_first_order ((cs.filter (fun c => c.uri ≠ "" ∧ c.uri = uri)).flatMap
    (fun c => c.other_properties.flatMap (fun p =>
      if contains_sub p "skos:topConceptOf " then
        (extract_uris_from_property p).filter (· ≠ "")
      else [])))

/-- Scanner for `re.findall(r'skos:hasTopConcept\s+<([^>]+)>', text)`. -/
def find_pred_bracketed (pred : List Char) : Nat → List Char → List String
  | 0, _ => []
  | _ + 1, [] => []
  | fuel + 1, l@(_ :: t) =>
    if pred.isPrefixOf l then
      let after := l.drop pred.length
      let ws := after.takeWhile py_space
      if ws ≠ [] then
        match after.drop ws.length with
        | '<' :: r =>
          let inner := r.takeWhile (· ≠ '>')
          if inner ≠ [] ∧ r.drop inner.length ≠ [] then
            (⟨inner⟩ : String) :: find_pred_bracketed pred fuel (r.drop (inner.length + 1))
          else find_pred_bracketed pred fuel t
        | _ => find_pred_bracketed pred fuel t
      else find_pred_bracketed pred fuel t
    else find_pred_bracketed pred fuel t

/-- Embedding of `_validate_scheme_consistency` (rule family 6).  Reads
`concept_scheme` and (through `_clean_uri`) `base_uri` from the state.
Warnings are always empty. -/
def validate_scheme_consistency (st : CleanerState) (cs : List Concept) :
    List String × List String :=
  let concept_uris := (cs.filter (fun c => c.uri ≠ "")).map Concept.uri
  let top_uris := dedup_first_order
    ((cs.filter (fun c => c.uri ≠ "" ∧ top_of_list cs c.uri ≠ [])).map Concept.uri)
  let violations1 := top_uris.flatMap (fun u =>
    (top_of_list cs u).filterMap (fun tok =>
      if ¬ (in_scheme_list cs u).contains tok then
        some ("Concept <" ++ u ++ "> has topConceptOf " ++ tok ++
          " but is missing inScheme " ++ tok)
      else none))
  let violations2 :=
    match st.concept_scheme with
    | none => []
    | some scheme =>
      let first_line := py_strip ((split_lines scheme).headD "")
      let subj := match_decl_at "skos:ConceptScheme".data first_line.data
      let subj_tokens :=
        match subj with
        | none => none
        | some g =>
          let gs : String := ⟨g⟩
          let inner := strip_angle_pair gs
          let bare := clean_uri st inner
          some (("<" ++ inner ++ ">", "<" ++ bare ++ ">"), bare)
      let targets := find_pred_bracketed "skos:hasTopConcept".data
        scheme.data.length scheme.data
      targets.flatMap (fun target =>
        let target_bare := clean_uri st (py_strip target)
        if ¬ concept_uris.contains target_bare then
          ["hasTopConcept points to non-Concept: <" ++ target_bare ++ ">"]
        else
          match subj_tokens with
          | some (toks, bare) =>
            if bare ≠ "" then
              let tis := in_scheme_list cs target_bare
              if ¬ (tis.contains toks.1 ∨ tis.contains toks.2) then
                ["Concept <" ++ target_bare ++ "> is hasTopConcept of " ++ toks.1 ++
                 " but missing inScheme " ++ toks.1]
              else []
            else []
          | none => [])
  (violations1 ++ violations2, [])

/-- The sixteen fixed categories of `_summarize_validation_counts` with
their membership predicates, in source order. -/
def category_preds : List (String × (String → Bool)) :=
  [("S14 prefLabel duplicates", fun s => py_starts_with s "S14 Violation"),
   ("S13 pref/alt overlap", fun s => py_starts_with s "S13 Violation"),
   ("URI format invalid", fun s => py_starts_with s "Invalid URI format"),
   ("Language tag possibly invalid", fun s => contains_sub s "Potentially invalid language tag"),
   ("S27 broader+related conflict", fun s => py_starts_with s "S27 Violation"),
   ("Simple hierarchy cycles", fun s => py_starts_with s "Simple cycle detected"),
   ("Hierarchy gap (missing intermediate level)", fun s => py_starts_with s "Hierarchy gap"),
   ("Hierarchy: missing broader to prefix", fun s => py_starts_with s "Inconsistent hierarchy"),
   ("Hierarchy: parent missing narrower", fun s => py_starts_with s "Parent missing skos:narrower"),
   ("Scheme: topConceptOf without inScheme",
      fun s => contains_sub s "has topConceptOf" && contains_sub s "missing inScheme"),
   ("Scheme: hasTopConcept -> non-Concept",
      fun s => contains_sub s "hasTopConcept points to non-Concept"),
   ("Scheme: hasTopConcept target missing inScheme",
      fun s => contains_sub s "is hasTopConcept of" && contains_sub s "missing inScheme"),
   ("Label warning: very long", fun s => py_starts_with s "Very long label"),
   ("Label warning: empty", fun s => py_starts_with s "Empty label"),
   ("Label warning: encoding issue", fun s => py_starts_with s "Potential encoding issue"),
   ("Label warning: looks like URI", fun s => py_starts_with s "Label looks like URI")]

/-- Embedding of `_summarize_validation_counts`: one count per category
over the concatenation of violations, warnings and infos; every category is
reported, zero or not. -/
def summarize_validation_counts (violations warnings infos : List String) :
    List (String × Nat) :=
  category_preds.map (fun pr => (pr.1, (violations ++ warnings ++ infos).countP pr.2))

/-- Whether at least one of the sixteen category predicates counts the
message. -/
def matched_by_any (msg : String) : Bool :=
  category_preds.any (fun pr => pr.2 msg)

/-- The `concepts[i:i + chunk_size]` slices of the chunked loops. -/
def chunks_of (n : Nat) : Nat → List Concept → List (List Concept)
  | 0, _ => []
  | _ + 1, [] => []
  | fuel + 1, l => l.take n :: chunks_of n fuel (l.drop n)

/-- The violations contributed by rule families 1-3 on one chunk, in the
order the chunked loop runs them. -/
def chunk_families_violations (ch : List Concept) : List String :=
  (validate_skos_integrity ch).1 ++ (validate_semantic_relations ch).1 ++
    (validate_datatypes_and_uris ch).1

/-- The warnings contributed by rule families 1-3 on one chunk. -/
def chunk_families_warnings (ch : List Concept) : List String :=
  (validate_skos_integrity ch).2 ++ (validate_semantic_relations ch).2 ++
    (validate_datatypes_and_uris ch).2

/-- Embedding of `_validate_concepts_chunked`: families 1-3 run per chunk,
then the hierarchy-gap family and the scheme-consistency family run once
over the full concept list. -/
def validate_concepts_chunked (st : CleanerState) (cs : List Concept) :
    List String × List String :=
  let chs := chunks_of st.chunk_size cs.length cs
  let pr := chs.foldl
    (fun acc ch => (acc.1 ++ chunk_families_violations ch,
                    acc.2 ++ chunk_families_warnings ch))
    ([], [])
  let hg := validate_hierarchy_gaps st.warn_missing_narrower cs
  let sc := validate_scheme_consistency st cs
  (pr.1 ++ hg.1 ++ sc.1, pr.2 ++ hg.2.1 ++ sc.2)

/-- The non-chunked validation sequence of `clean_ttl_file`: families 1-3,
the flag-gated SKOS-XL family, then hierarchy gaps and scheme consistency,
all over the full concept list. -/
def standard_validate (st : CleanerState) (cs : List Concept) :
    List String × List String :=
  let a := validate_skos_integrity cs
  let b := validate_semantic_relations cs
  let c := validate_datatypes_and_uris cs
  let x := if st.enable_skos_xl then validate_skos_xl_labels st cs else ([], [])
  let h := validate_hierarchy_gaps st.warn_missing_narrower cs
  let s := validate_scheme_consistency st cs
  (a.1 ++ b.1 ++ c.1 ++ x.1 ++ h.1 ++ s.1,
   a.2 ++ b.2 ++ c.2 ++ x.2 ++ h.2.1 ++ s.2)

end TTL


namespace TTL

theorem clean_concepts_aux_sublist (seen : List String) (st : CleanerState)
    (cs : List Concept) : (clean_concepts_aux seen st cs).1.Sublist cs := by
  induction cs generalizing seen st with
  | nil => simp [clean_concepts_aux]
  | cons c rest ih =>
    by_cases h : c.uri ∈ seen
    · simp only [clean_concepts_aux, if_pos h]
      exact (ih _ _).cons c
    · simp only [clean_concepts_aux, if_neg h]
      exact (ih _ _).cons₂ c

theorem clean_concepts_aux_find (seen : List String) (st : CleanerState)
    (cs : List Concept) (u : String) (hu : u ∉ seen) :
    (clean_concepts_aux seen st cs).1.find? (fun c => c.uri == u)
      = cs.find? (fun c => c.uri == u) := by
  induction cs generalizing seen st with
  | nil => simp [clean_concepts_aux]
  | cons c rest ih =>
    by_cases h : c.uri ∈ seen
    · have he : c.uri ≠ u := fun hh => hu (hh ▸ h)
      have hne : (c.uri == u) = false := by simp [he]
      simp only [clean_concepts_aux, if_pos h, List.find?_cons, hne]
      exact ih _ _ hu
    · by_cases he : c.uri = u
      · subst he
        simp [clean_concepts_aux, if_neg h, List.find?_cons]
      · have hne : (c.uri == u) = false := by simp [he]
        have hu2 : u ∉ c.uri :: seen := by
          intro hh
          rcases List.mem_cons.mp hh with hh | hh
          · exact he hh.symm
          · exact hu hh
        simp only [clean_concepts_aux, if_neg h, List.find?_cons, hne]
        exact ih _ _ hu2

theorem clean_concepts_aux_countP (seen : List String) (st : CleanerState)
    (cs : List Concept) (u : String) :
    (clean_concepts_aux seen st cs).1.countP (fun c => c.uri == u)
      ≤ (if u ∈ seen then 0 else 1) := by
  induction cs generalizing seen st with
  | nil => simp [clean_concepts_aux]
  | cons c rest ih =>
    by_cases h : c.uri ∈ seen
    · simp only [clean_concepts_aux, if_pos h]
      exact ih _ _
    · by_cases he : c.uri = u
      · subst he
        have h2 : c.uri ∈ c.uri :: seen := List.mem_cons_self _ _
        have hrec := ih (c.uri :: seen) st
        rw [if_pos h2] at hrec
        simp only [clean_concepts_aux, if_neg h, List.countP_cons, if_neg h,
          beq_self_eq_true, if_pos, if_true]
        omega
      · have hne : (c.uri == u) = false := by simp [he]
        have h2 : (u ∈ c.uri :: seen) ↔ (u ∈ seen) := by
          constructor
          · intro hh
            rcases List.mem_cons.mp hh with hh | hh
            · exact absurd hh.symm he
            · exact hh
          · exact fun hh => List.mem_cons_of_mem _ hh
        have hrec := ih (c.uri :: seen) st
        simp only [clean_concepts_aux, if_neg h, List.countP_cons, hne,
          Bool.false_eq_true, if_false]
        by_cases hs : u ∈ seen
        · rw [if_pos (h2.mpr hs)] at hrec
          rw [if_pos hs]
          omega
        · rw [if_neg (fun hh => hs (h2.mp hh))] at hrec
          rw [if_neg hs]
          omega

theorem clean_concepts_aux_dups (seen : List String) (st : CleanerState)
    (cs : List Concept) :
    (clean_concepts_aux seen st cs).2.duplicates_removed
        + (clean_concepts_aux seen st cs).1.length
      = st.duplicates_removed + cs.length := by
  induction cs generalizing seen st with
  | nil => simp [clean_concepts_aux]
  | cons c rest ih =>
    by_cases h : c.uri ∈ seen
    · simp only [clean_concepts_aux, if_pos h]
      have := ih seen
        { st with duplicates_removed := st.duplicates_removed + 1,
                  change_log := st.change_log ++ ["Duplicate removed: " ++ c.uri] }
      simp only [List.length_cons] at this ⊢
      omega
    · simp only [clean_concepts_aux, if_neg h, List.length_cons]
      have := ih (c.uri :: seen) st
      omega

end TTL

namespace TTL

/-- Sample concept records used by the concrete witnesses below. -/
def sample_concept (u : String) (props : List String) : Concept :=
  { uri := u, prefLabels := [⟨"x", "en"⟩], altLabels := [], definitions := [],
    notes := [], scopeNotes := [], editorialNotes := [], historyNotes := [],
    changeNotes := [], examples := [], other_properties := props,
    raw_block := "", issues := [] }

/-- C1: `_clean_concepts` keeps exactly the first-seen concept per URI in
parse order: the result is a sublist of the input (relative order
preserved), the record kept for any URI is the first input record with that
URI, every URI of the result has exactly one record, and
`duplicates_removed` grows by exactly the number of dropped records. -/
theorem C1_clean_concepts_dedup (st : CleanerState) (cs : List Concept) :
    (clean_concepts st cs).1.Sublist cs
    ∧ (∀ u : String, (clean_concepts st cs).1.find? (fun c => c.uri == u)
        = cs.find? (fun c => c.uri == u))
    ∧ (∀ c ∈ (clean_concepts st cs).1,
        (clean_concepts st cs).1.countP (fun d => d.uri == c.uri) = 1)
    ∧ (clean_concepts st cs).2.duplicates_removed + (clean_concepts st cs).1.length
        = st.duplicates_removed + cs.length := by
  refine ⟨clean_concepts_aux_sublist [] st cs,
    fun u => clean_concepts_aux_find [] st cs u (by simp),
    fun c hc => ?_,
    clean_concepts_aux_dups [] st cs⟩
  have hle := clean_concepts_aux_countP [] st cs c.uri
  simp only [List.not_mem_nil, if_neg, if_false] at hle
  have hpos : 0 < (clean_concepts st cs).1.countP (fun d => d.uri == c.uri) :=
    List.countP_pos_iff.mpr ⟨c, hc, by simp⟩
  have hle2 : (clean_concepts st cs).1.countP (fun d => d.uri == c.uri) ≤ 1 := hle
  omega

/-- Witness for C1 at a concrete two-record duplicate list. -/
theorem C1_clean_concepts_dedup_witness :
    (clean_concepts init_state
      [sample_concept "http://x/1" [], sample_concept "http://x/1" ["skos:note y"]]).1.countP
        (fun d => d.uri == (sample_concept "http://x/1" []).uri) = 1 :=
  (C1_clean_concepts_dedup init_state
    [sample_concept "http://x/1" [], sample_concept "http://x/1" ["skos:note y"]]).2.2.1
    (sample_concept "http://x/1" []) (by decide)

end TTL

namespace TTL

/-- Counterexample for C4: the token `<urn:isbn:0451450523>` strips to
`urn:isbn:0451450523`, which has an absolute scheme (`urn:`), yet
`_clean_uri` does not return it unchanged: the `startswith('http')` test
fails and the value is expanded as a prefixed name. -/
theorem C4_clean_uri_urn_counterexample :
    strip_angle_pair (py_strip "<urn:isbn:0451450523>") = "urn:isbn:0451450523"
    ∧ clean_uri init_state "<urn:isbn:0451450523>"
        = "http://example.org/urn/isbn:0451450523"
    ∧ clean_uri init_state "<urn:isbn:0451450523>" ≠ "urn:isbn:0451450523" := by
  refine ⟨by decide, by decide, by decide⟩

/-- C4 (amended): a raw identifier token whose bracket-stripped value
starts with `http` (covering `http:` and `https:` but no other scheme) is
returned by `_clean_uri` exactly as that stripped value — no base-URI
resolution, prefix expansion, or default-namespace injection. -/
theorem C4_clean_uri_http_unchanged (st : CleanerState) (uri : String)
    (h : py_starts_with (strip_angle_pair (py_strip uri)) "http" = true) :
    clean_uri st uri = strip_angle_pair (py_strip uri) := by
  simp only [clean_uri, h, if_pos]

/-- Witness for the amended C4 at an `https` token. -/
theorem C4_clean_uri_http_unchanged_witness :
    clean_uri init_state "<https://x/1>" = strip_angle_pair (py_strip "<https://x/1>") :=
  C4_clean_uri_http_unchanged init_state "<https://x/1>" (by decide)

/-- Counterexample for C5: a block with no concept-type declaration is
rejected with the state — in particular every statistic counter —
completely unchanged: no counter records the rejection. -/
theorem C5_no_subject_counterexample :
    parse_concept_block init_state "no subject declaration here" = (none, init_state) := by
  decide

/-- C5 (amended): when no concept-type declaration is found in the block,
`_parse_concept_block` returns nothing and leaves the state untouched —
the run is not aborted, but no statistic counter is incremented either
(the source only appends `'No URI found'` to the `issues` list of the
local record it then discards). -/
theorem C5_no_subject_rejected (st : CleanerState) (block : String)
    (h : search_decl "skos:Concept".data (block.data.length + 1) block.data = none) :
    parse_concept_block st block = (none, st) := by
  simp only [parse_concept_block, h]

/-- Witness for the amended C5 at a concrete subject-free block. -/
theorem C5_no_subject_rejected_witness :
    parse_concept_block init_state "foo" = (none, init_state) :=
  C5_no_subject_rejected init_state "foo" (by decide)

end TTL

namespace TTL

set_option maxRecDepth 100000

/-- C9: processing the single block
`<42-10> a skos:Concept ; skos:prefLabel "Foo,Bar"@en .` through the
extract-clean-serialize pipeline emits the preferred label as
`"Foo, Bar"@en` and records exactly one comma-spacing fix, even though the
label-cleaning variant itself leaves `Foo,Bar` untouched (the fix happens
in `_format_concept` via `_fix_comma_spacing`). -/
theorem C9_comma_spacing_scenario :
    (clean_label init_state "Foo,Bar").1 = some "Foo,Bar"
    ∧ contains_sub
        (clean_file_core init_state
          "<42-10> a skos:Concept ; skos:prefLabel \"Foo,Bar\"@en .").1
        "skos:prefLabel \"Foo, Bar\"@en" = true
    ∧ (clean_file_core init_state
        "<42-10> a skos:Concept ; skos:prefLabel \"Foo,Bar\"@en .").2.comma_fixes = 1 := by
  refine ⟨by decide, by decide, by decide⟩

/-- The input on which re-running the pipeline performs additional repairs:
run 1 collapses the tab inside the label to a space, manufacturing the
mojibake pattern `Ã` + space, which run 2's encoding table then rewrites. -/
def c3_failing_input : String :=
  "<http://x/1> a skos:Concept ;\n    skos:prefLabel \"Ã\tx\"@en ."

/-- C3: cleaning is not idempotent.  On `c3_failing_input` the first run
performs no encoding fix, yet the second run — started from a fresh state
on the first run's output — performs two (the label is cleaned once per
extraction pass); the other three repair counters of the second run are
zero. -/
theorem C3_idempotence_failure :
    (clean_file_core init_state c3_failing_input).2.encoding_issues_fixed = 0
    ∧ (clean_file_core init_state
        (clean_file_core init_state c3_failing_input).1).2.encoding_issues_fixed = 2
    ∧ (clean_file_core init_state
        (clean_file_core init_state c3_failing_input).1).2.comma_fixes = 0
    ∧ (clean_file_core init_state
        (clean_file_core init_state c3_failing_input).1).2.duplicates_removed = 0
    ∧ (clean_file_core init_state
        (clean_file_core init_state c3_failing_input).1).2.malformed_uris_fixed = 0 := by
  refine ⟨by decide, by decide, by decide, by decide, by decide⟩

end TTL

namespace TTL

theorem clean_label_fst (st st' : CleanerState) (s : String) :
    (clean_label st s).1 = (clean_label st' s).1 := by
  unfold clean_label
  by_cases h : s = ""
  · simp only [h, if_pos]
  · simp only [h, if_neg, not_false_iff]
    split <;> rfl

theorem clean_label_cwp (st : CleanerState) (s : String) :
    (clean_label st s).2.concepts_without_preflabel = st.concepts_without_preflabel := by
  unfold clean_label
  by_cases h : s = ""
  · simp only [h, if_pos]
  · simp only [h, if_neg, not_false_iff]
    split <;> split <;> split <;> rfl

theorem clean_text_field_cwp (st : CleanerState) (s : String) :
    (clean_text_field st s).2.concepts_without_preflabel
      = st.concepts_without_preflabel := by
  unfold clean_text_field
  by_cases h : s = ""
  · simp only [h, if_pos]
  · simp only [h, if_neg, not_false_iff]
    split <;> split <;> rfl

theorem uri_issue_step_cwp (st : CleanerState) (raw : String) :
    (uri_issue_step st raw).2.concepts_without_preflabel
      = st.concepts_without_preflabel := by
  unfold uri_issue_step
  dsimp only
  split <;> try rfl
  split <;> rfl

theorem labels_first_step_cwp (a : List LPair × CleanerState) (cap : QCap) :
    (labels_first_step a cap).2.concepts_without_preflabel
      = a.2.concepts_without_preflabel := by
  unfold labels_first_step
  dsimp only
  cases h : (clean_label a.2 cap.text).1 with
  | none => simpa [h] using clean_label_cwp a.2 cap.text
  | some cl => simpa [h] using clean_label_cwp a.2 cap.text

theorem labels_multi_step_cwp (a : List LPair × CleanerState) (cap : QCap) :
    (labels_multi_step a cap).2.concepts_without_preflabel
      = a.2.concepts_without_preflabel := by
  unfold labels_multi_step
  dsimp only
  cases h : (clean_label a.2 cap.text).1 with
  | none => simpa [h] using clean_label_cwp a.2 cap.text
  | some cl =>
    simp only [h]
    split <;> simpa using clean_label_cwp a.2 cap.text

theorem text_fields_step_cwp (a : List LPair × CleanerState) (cap : QCap) :
    (text_fields_step a cap).2.concepts_without_preflabel
      = a.2.concepts_without_preflabel := by
  unfold text_fields_step
  dsimp only
  cases h : (clean_text_field a.2 cap.text).1 with
  | none => simpa [h] using clean_text_field_cwp a.2 cap.text
  | some ct => simpa [h] using clean_text_field_cwp a.2 cap.text

theorem foldl_labels_first_cwp (caps : List QCap) (a : List LPair × CleanerState) :
    (caps.foldl labels_first_step a).2.concepts_without_preflabel
      = a.2.concepts_without_preflabel := by
  induction caps generalizing a with
  | nil => rfl
  | cons cap rest ih =>
    rw [List.foldl_cons, ih]
    exact labels_first_step_cwp a cap

theorem foldl_labels_multi_cwp (caps : List QCap) (a : List LPair × CleanerState) :
    (caps.foldl labels_multi_step a).2.concepts_without_preflabel
      = a.2.concepts_without_preflabel := by
  induction caps generalizing a with
  | nil => rfl
  | cons cap rest ih =>
    rw [List.foldl_cons, ih]
    exact labels_multi_step_cwp a cap

theorem foldl_labels_tails_cwp (tls : List (List Char)) (a : List LPair × CleanerState) :
    (tls.foldl labels_multi_tail a).2.concepts_without_preflabel
      = a.2.concepts_without_preflabel := by
  induction tls generalizing a with
  | nil => rfl
  | cons tl rest ih =>
    rw [List.foldl_cons, ih]
    exact foldl_labels_multi_cwp _ a

theorem foldl_text_fields_cwp (caps : List QCap) (a : List LPair × CleanerState) :
    (caps.foldl text_fields_step a).2.concepts_without_preflabel
      = a.2.concepts_without_preflabel := by
  induction caps generalizing a with
  | nil => rfl
  | cons cap rest ih =>
    rw [List.foldl_cons, ih]
    exact text_fields_step_cwp a cap

theorem parse_labels_first_cwp (st : CleanerState) (pred : String) (bl : List Char) :
    (parse_labels_first st pred bl).2.concepts_without_preflabel
      = st.concepts_without_preflabel :=
  foldl_labels_first_cwp _ _

theorem parse_labels_multi_cwp (st : CleanerState) (pred : String) (bl : List Char)
    (cur : List LPair) :
    (parse_labels_multi st pred bl cur).2.concepts_without_preflabel
      = st.concepts_without_preflabel :=
  foldl_labels_tails_cwp _ _

theorem parse_text_fields_cwp (st : CleanerState) (pred : String) (bl : List Char) :
    (parse_text_fields st pred bl).2.concepts_without_preflabel
      = st.concepts_without_preflabel :=
  foldl_text_fields_cwp _ _

theorem pref_pipeline_cwp (st : CleanerState) (bl : List Char) :
    (pref_pipeline st bl).2.concepts_without_preflabel
      = st.concepts_without_preflabel := by
  unfold pref_pipeline
  rw [parse_labels_multi_cwp, parse_labels_first_cwp]

theorem alt_pipeline_cwp (st : CleanerState) (bl : List Char) :
    (alt_pipeline st bl).2.concepts_without_preflabel
      = st.concepts_without_preflabel := by
  unfold alt_pipeline
  rw [parse_labels_multi_cwp, parse_labels_first_cwp]

end TTL

namespace TTL

theorem labels_first_step_fst_congr (a b : List LPair × CleanerState) (cap : QCap)
    (h : a.1 = b.1) : (labels_first_step a cap).1 = (labels_first_step b cap).1 := by
  unfold labels_first_step
  have hv : (clean_label a.2 cap.text).1 = (clean_label b.2 cap.text).1 :=
    clean_label_fst _ _ _
  cases hcl : (clean_label b.2 cap.text).1 with
  | none =>
    have h2 : (clean_label a.2 cap.text).1 = none := hv.trans hcl
    simp [h2, hcl, h]
  | some cl =>
    have h2 : (clean_label a.2 cap.text).1 = some cl := hv.trans hcl
    simp [h2, hcl, h]

theorem labels_multi_step_fst_congr (a b : List LPair × CleanerState) (cap : QCap)
    (h : a.1 = b.1) : (labels_multi_step a cap).1 = (labels_multi_step b cap).1 := by
  unfold labels_multi_step
  have hv : (clean_label a.2 cap.text).1 = (clean_label b.2 cap.text).1 :=
    clean_label_fst _ _ _
  cases hcl : (clean_label b.2 cap.text).1 with
  | none =>
    have h2 : (clean_label a.2 cap.text).1 = none := hv.trans hcl
    simp [h2, hcl, h]
  | some cl =>
    have h2 : (clean_label a.2 cap.text).1 = some cl := hv.trans hcl
    simp only [h2, hcl, h]
    split <;> rfl

theorem foldl_labels_first_fst_congr (caps : List QCap)
    (a b : List LPair × CleanerState) (h : a.1 = b.1) :
    (caps.foldl labels_first_step a).1 = (caps.foldl labels_first_step b).1 := by
  induction caps generalizing a b with
  | nil => exact h
  | cons cap rest ih =>
    rw [List.foldl_cons, List.foldl_cons]
    exact ih _ _ (labels_first_step_fst_congr a b cap h)

theorem foldl_labels_multi_fst_congr (caps : List QCap)
    (a b : List LPair × CleanerState) (h : a.1 = b.1) :
    (caps.foldl labels_multi_step a).1 = (caps.foldl labels_multi_step b).1 := by
  induction caps generalizing a b with
  | nil => exact h
  | cons cap rest ih =>
    rw [List.foldl_cons, List.foldl_cons]
    exact ih _ _ (labels_multi_step_fst_congr a b cap h)

theorem labels_multi_tail_fst_congr (a b : List LPair × CleanerState) (tl : List Char)
    (h : a.1 = b.1) : (labels_multi_tail a tl).1 = (labels_multi_tail b tl).1 := by
  unfold labels_multi_tail
  exact foldl_labels_multi_fst_congr _ a b h

theorem foldl_labels_tails_fst_congr (tls : List (List Char))
    (a b : List LPair × CleanerState) (h : a.1 = b.1) :
    (tls.foldl labels_multi_tail a).1 = (tls.foldl labels_multi_tail b).1 := by
  induction tls generalizing a b with
  | nil => exact h
  | cons tl rest ih =>
    rw [List.foldl_cons, List.foldl_cons]
    exact ih _ _ (labels_multi_tail_fst_congr a b tl h)

/-- The preferred-label sequence that label extraction yields on a block;
by `pref_pipeline_fst` below it does not depend on the threaded state. -/
def yielded_pref_labels (st : CleanerState) (block : String) : List LPair :=
  (pref_pipeline st block.data).1

theorem pref_pipeline_fst (st st' : CleanerState) (bl : List Char) :
    (pref_pipeline st bl).1 = (pref_pipeline st' bl).1 := by
  unfold pref_pipeline parse_labels_first parse_labels_multi
  exact foldl_labels_tails_fst_congr _ _ _ (foldl_labels_first_fst_congr _ _ _ rfl)

end TTL

namespace TTL

/-- C2: `_parse_concept_block` returns a concept record only if that
record's preferred-label sequence (exactly what label extraction yields on
the block) is non-empty; and whenever a concept-type declaration is found
but label extraction yields zero preferred labels, the parser returns
nothing and increments `concepts_without_preflabel` by exactly one — a hard
filtering rule, so every concept in the final graph has at least one
prefLabel. -/
theorem C2_preflabel_rejection :
    (∀ (st : CleanerState) (block : String) (c : Concept) (st' : CleanerState),
        parse_concept_block st block = (some c, st') →
          c.prefLabels = yielded_pref_labels st block ∧ c.prefLabels ≠ [])
    ∧ (∀ (st : CleanerState) (block : String),
        (search_decl "skos:Concept".data (block.data.length + 1) block.data).isSome →
        yielded_pref_labels st block = [] →
          (parse_concept_block st block).1 = none ∧
          (parse_concept_block st block).2.concepts_without_preflabel
            = st.concepts_without_preflabel + 1) := by
  constructor
  · intro st block c st' h
    unfold parse_concept_block at h
    dsimp only at h
    cases hs : search_decl "skos:Concept".data (block.data.length + 1) block.data with
    | none =>
      rw [hs] at h
      exact absurd (congrArg Prod.fst h) (by simp)
    | some g =>
      rw [hs] at h
      dsimp only at h
      by_cases hp : (pref_pipeline (uri_issue_step st (py_strip g)).2 block.data).1 = []
      · rw [if_pos hp] at h
        exact absurd (congrArg Prod.fst h) (by simp)
      · rw [if_neg hp] at h
        have hc := (Prod.mk.injEq _ _ _ _).mp h
        have hcc := Option.some.inj hc.1
        constructor
        · rw [← hcc]
          exact pref_pipeline_fst _ _ _
        · rw [← hcc]
          exact hp
  · intro st block hsome hy
    obtain ⟨g, hs⟩ := Option.isSome_iff_exists.mp hsome
    have hp : (pref_pipeline (uri_issue_step st (py_strip g)).2 block.data).1 = [] := by
      rw [pref_pipeline_fst _ st]
      exact hy
    unfold parse_concept_block
    dsimp only
    rw [hs]
    dsimp only
    rw [if_pos hp]
    refine ⟨rfl, ?_⟩
    dsimp only
    rw [parse_text_fields_cwp, parse_text_fields_cwp, parse_text_fields_cwp,
      parse_text_fields_cwp, parse_text_fields_cwp, parse_text_fields_cwp,
      parse_text_fields_cwp, alt_pipeline_cwp, pref_pipeline_cwp, uri_issue_step_cwp]

/-- Witness for C2: a block with a subject declaration whose only
prefLabel is blank after cleaning yields zero preferred labels, so the
parser rejects it and counts it. -/
theorem C2_preflabel_rejection_witness :
    (parse_concept_block init_state
      "<http://x/9> a skos:Concept ;\n  skos:prefLabel \" \t \"@en .").1 = none
    ∧ (parse_concept_block init_state
        "<http://x/9> a skos:Concept ;\n  skos:prefLabel \" \t \"@en .").2.concepts_without_preflabel
      = init_state.concepts_without_preflabel + 1 :=
  C2_preflabel_rejection.2 init_state
    "<http://x/9> a skos:Concept ;\n  skos:prefLabel \" \t \"@en ."
    (by decide) (by decide)

end TTL

namespace TTL

/-- Shape of the language tags the parser stores: exactly two lowercase
ASCII letters. -/
def two_lower (s : String) : Bool :=
  match s.data with
  | [c1, c2] => low_char c1 && low_char c2
  | _ => false

theorem try_quoted_at_lang (l : List Char) (cap : QCap) (rest : List Char)
    (h : try_quoted_at l = some (cap, rest)) :
    cap.lang = none ∨ ∃ s, cap.lang = some s ∧ two_lower s = true := by
  unfold try_quoted_at at h
  split at h
  · simp only [] at h
    split at h
    · split at h
      · split at h
        · have := (Prod.mk.injEq _ _ _ _).mp (Option.some.inj h)
          rw [← this.1]
          right
          rename_i c1 c2 r2 hlow
          exact ⟨_, rfl, by simpa [two_lower] using hlow⟩
        · have := (Prod.mk.injEq _ _ _ _).mp (Option.some.inj h)
          rw [← this.1]
          left
          rfl
      · have := (Prod.mk.injEq _ _ _ _).mp (Option.some.inj h)
        rw [← this.1]
        left
        rfl
    · exact absurd h (by simp)
  · exact absurd h (by simp)

theorem find_pred_quoted_lang (pred : List Char) :
    ∀ (fuel : Nat) (l : List Char), ∀ cap ∈ find_pred_quoted pred fuel l,
      cap.lang = none ∨ ∃ s, cap.lang = some s ∧ two_lower s = true := by
  intro fuel
  induction fuel with
  | zero => intro l cap h; exact absurd h (by simp [find_pred_quoted])
  | succ n ih =>
    intro l cap h
    match l with
    | [] => exact absurd h (by simp [find_pred_quoted])
    | c :: t =>
      unfold find_pred_quoted at h
      split at h
      · simp only [] at h
        split at h
        · split at h
          · rcases List.mem_cons.mp h with h1 | h1
            · rename_i capr heq
              exact h1 ▸ try_quoted_at_lang _ _ _ heq
            · exact ih _ _ h1
          · exact ih _ _ h
        · exact ih _ _ h
      · exact ih _ _ h

theorem scan_quoted_lang :
    ∀ (fuel : Nat) (l : List Char), ∀ cap ∈ scan_quoted fuel l,
      cap.lang = none ∨ ∃ s, cap.lang = some s ∧ two_lower s = true := by
  intro fuel
  induction fuel with
  | zero => intro l cap h; exact absurd h (by simp [scan_quoted])
  | succ n ih =>
    intro l cap h
    match l with
    | [] => exact absurd h (by simp [scan_quoted])
    | c :: t =>
      unfold scan_quoted at h
      split at h
      · rename_i capr heq
        rcases List.mem_cons.mp h with h1 | h1
        · exact h1 ▸ try_quoted_at_lang _ _ _ heq
        · exact ih _ _ h1
      · exact ih _ _ h

theorem lang_entry_two_lower (cap : QCap)
    (h : cap.lang = none ∨ ∃ s, cap.lang = some s ∧ two_lower s = true) :
    two_lower (cap.lang.getD "en") = true := by
  rcases h with h | ⟨s, hs, hl⟩
  · rw [h]; decide
  · rw [hs]; exact hl

theorem foldl_labels_first_lang (caps : List QCap)
    (hcaps : ∀ cap ∈ caps, cap.lang = none ∨ ∃ s, cap.lang = some s ∧ two_lower s = true)
    (a : List LPair × CleanerState) :
    ∀ p ∈ (caps.foldl labels_first_step a).1, p ∈ a.1 ∨ two_lower p.lang = true := by
  induction caps generalizing a with
  | nil => intro p hp; exact Or.inl hp
  | cons cap rest ih =>
    intro p hp
    rw [List.foldl_cons] at hp
    have hrec := ih (fun c hc => hcaps c (List.mem_cons_of_mem _ hc)) _ p hp
    rcases hrec with hrec | hrec
    · unfold labels_first_step at hrec
      dsimp only at hrec
      rcases hcl : (clean_label a.2 cap.text).1 with _ | cl
      · rw [hcl] at hrec
        exact Or.inl hrec
      · rw [hcl] at hrec
        dsimp only at hrec
        rcases List.mem_append.mp hrec with h1 | h1
        · exact Or.inl h1
        · right
          have := List.mem_singleton.mp h1
          rw [this]
          exact lang_entry_two_lower cap (hcaps cap (List.mem_cons_self _ _))
    · exact Or.inr hrec

theorem foldl_labels_multi_lang (caps : List QCap)
    (hcaps : ∀ cap ∈ caps, cap.lang = none ∨ ∃ s, cap.lang = some s ∧ two_lower s = true)
    (a : List LPair × CleanerState) :
    ∀ p ∈ (caps.foldl labels_multi_step a).1, p ∈ a.1 ∨ two_lower p.lang = true := by
  induction caps generalizing a with
  | nil => intro p hp; exact Or.inl hp
  | cons cap rest ih =>
    intro p hp
    rw [List.foldl_cons] at hp
    have hrec := ih (fun c hc => hcaps c (List.mem_cons_of_mem _ hc)) _ p hp
    rcases hrec with hrec | hrec
    · unfold labels_multi_step at hrec
      dsimp only at hrec
      rcases hcl : (clean_label a.2 cap.text).1 with _ | cl
      · rw [hcl] at hrec
        exact Or.inl hrec
      · rw [hcl] at hrec
        dsimp only at hrec
        split at hrec
        · exact Or.inl hrec
        · rcases List.mem_append.mp hrec with h1 | h1
          · exact Or.inl h1
          · right
            have := List.mem_singleton.mp h1
            rw [this]
            exact lang_entry_two_lower cap (hcaps cap (List.mem_cons_self _ _))
    · exact Or.inr hrec

theorem foldl_labels_tails_lang (tls : List (List Char))
    (a : List LPair × CleanerState) :
    ∀ p ∈ (tls.foldl labels_multi_tail a).1, p ∈ a.1 ∨ two_lower p.lang = true := by
  induction tls generalizing a with
  | nil => intro p hp; exact Or.inl hp
  | cons tl rest ih =>
    intro p hp
    rw [List.foldl_cons] at hp
    rcases ih _ p hp with h1 | h1
    · unfold labels_multi_tail at h1
      exact foldl_labels_multi_lang _ (fun cap hc => scan_quoted_lang _ _ cap hc) a p h1
    · exact Or.inr h1

theorem parse_labels_first_lang (st : CleanerState) (pred : String) (bl : List Char) :
    ∀ p ∈ (parse_labels_first st pred bl).1, two_lower p.lang = true := by
  intro p hp
  unfold parse_labels_first at hp
  rcases foldl_labels_first_lang _ (fun cap hc => find_pred_quoted_lang _ _ _ cap hc) _ p hp with h | h
  · exact absurd h (by simp)
  · exact h

theorem parse_labels_multi_lang (st : CleanerState) (pred : String) (bl : List Char)
    (cur : List LPair) (hcur : ∀ p ∈ cur, two_lower p.lang = true) :
    ∀ p ∈ (parse_labels_multi st pred bl cur).1, two_lower p.lang = true := by
  intro p hp
  unfold parse_labels_multi at hp
  rcases foldl_labels_tails_lang _ _ p hp with h | h
  · exact hcur p h
  · exact h

theorem foldl_text_fields_lang (caps : List QCap)
    (hcaps : ∀ cap ∈ caps, cap.lang = none ∨ ∃ s, cap.lang = some s ∧ two_lower s = true)
    (a : List LPair × CleanerState) :
    ∀ p ∈ (caps.foldl text_fields_step a).1, p ∈ a.1 ∨ two_lower p.lang = true := by
  induction caps generalizing a with
  | nil => intro p hp; exact Or.inl hp
  | cons cap rest ih =>
    intro p hp
    rw [List.foldl_cons] at hp
    have hrec := ih (fun c hc => hcaps c (List.mem_cons_of_mem _ hc)) _ p hp
    rcases hrec with hrec | hrec
    · unfold text_fields_step at hrec
      dsimp only at hrec
      rcases hcl : (clean_text_field a.2 cap.text).1 with _ | ct
      · rw [hcl] at hrec
        exact Or.inl hrec
      · rw [hcl] at hrec
        dsimp only at hrec
        rcases List.mem_append.mp hrec with h1 | h1
        · exact Or.inl h1
        · right
          have := List.mem_singleton.mp h1
          rw [this]
          exact lang_entry_two_lower cap (hcaps cap (List.mem_cons_self _ _))
    · exact Or.inr hrec

theorem parse_text_fields_lang (st : CleanerState) (pred : String) (bl : List Char) :
    ∀ p ∈ (parse_text_fields st pred bl).1, two_lower p.lang = true := by
  intro p hp
  unfold parse_text_fields at hp
  rcases foldl_text_fields_lang _ (fun cap hc => find_pred_quoted_lang _ _ _ cap hc) _ p hp with h | h
  · exact absurd h (by simp)
  · exact h

theorem pref_pipeline_lang (st : CleanerState) (bl : List Char) :
    ∀ p ∈ (pref_pipeline st bl).1, two_lower p.lang = true := by
  unfold pref_pipeline
  exact parse_labels_multi_lang _ _ _ _ (parse_labels_first_lang _ _ _)

theorem alt_pipeline_lang (st : CleanerState) (bl : List Char) :
    ∀ p ∈ (alt_pipeline st bl).1, two_lower p.lang = true := by
  unfold alt_pipeline
  exact parse_labels_multi_lang _ _ _ _ (parse_labels_first_lang _ _ _)

end TTL

namespace TTL

theorem two_lower_valid (s : String) (h : two_lower s = true) :
    is_valid_language_tag s = true := by
  unfold two_lower at h
  unfold is_valid_language_tag
  split at h
  · rename_i c1 c2 heq
    have hne : ¬ s = "" := by
      intro hh
      rw [hh] at heq
      exact absurd heq (by simp [String.data])
    rw [if_neg hne]
    rw [heq]
    simpa [subtags_match] using h
  · exact absurd h (by simp)

/-- Every `(text, lang)` pair stored in any of the nine label / note lists
of a parsed concept. -/
def all_lang_pairs (c : Concept) : List LPair :=
  c.prefLabels ++ c.altLabels ++ c.definitions ++ c.notes ++ c.scopeNotes ++
    c.editorialNotes ++ c.historyNotes ++ c.changeNotes ++ c.examples

theorem parse_concept_block_lang (st : CleanerState) (block : String)
    (c : Concept) (st' : CleanerState)
    (h : parse_concept_block st block = (some c, st')) :
    ∀ p ∈ all_lang_pairs c, two_lower p.lang = true := by
  unfold parse_concept_block at h
  dsimp only at h
  cases hs : search_decl "skos:Concept".data (block.data.length + 1) block.data with
  | none =>
    rw [hs] at h
    exact absurd (congrArg Prod.fst h) (by simp)
  | some g =>
    rw [hs] at h
    dsimp only at h
    by_cases hp : (pref_pipeline (uri_issue_step st (py_strip g)).2 block.data).1 = []
    · rw [if_pos hp] at h
      exact absurd (congrArg Prod.fst h) (by simp)
    · rw [if_neg hp] at h
      have hc := Option.some.inj ((Prod.mk.injEq _ _ _ _).mp h).1
      intro p hp2
      rw [← hc] at hp2
      unfold all_lang_pairs at hp2
      dsimp only at hp2
      rcases List.mem_append.mp hp2 with h9 | h9
      rotate_left
      · exact parse_text_fields_lang _ _ _ p h9
      rcases List.mem_append.mp h9 with h8 | h8
      rotate_left
      · exact parse_text_fields_lang _ _ _ p h8
      rcases List.mem_append.mp h8 with h7 | h7
      rotate_left
      · exact parse_text_fields_lang _ _ _ p h7
      rcases List.mem_append.mp h7 with h6 | h6
      rotate_left
      · exact parse_text_fields_lang _ _ _ p h6
      rcases List.mem_append.mp h6 with h5 | h5
      rotate_left
      · exact parse_text_fields_lang _ _ _ p h5
      rcases List.mem_append.mp h5 with h4 | h4
      rotate_left
      · exact parse_text_fields_lang _ _ _ p h4
      rcases List.mem_append.mp h4 with h3 | h3
      rotate_left
      · exact parse_text_fields_lang _ _ _ p h3
      rcases List.mem_append.mp h3 with h2 | h2
      · exact pref_pipeline_lang _ _ p h2
      · exact alt_pipeline_lang _ _ p h2

theorem extract_step_mem (a : List Concept × CleanerState) (block : String) :
    ∀ c ∈ (extract_step a block).1,
      c ∈ a.1 ∨ ∃ st1 st2, parse_concept_block st1 block = (some c, st2) := by
  intro c hc
  unfold extract_step at hc
  dsimp only at hc
  rcases hpb : (parse_concept_block a.2 block).1 with _ | c'
  · rw [hpb] at hc
    exact Or.inl hc
  · rw [hpb] at hc
    dsimp only at hc
    rcases List.mem_append.mp hc with h1 | h1
    · exact Or.inl h1
    · right
      have hcc := List.mem_singleton.mp h1
      refine ⟨a.2, (parse_concept_block a.2 block).2, ?_⟩
      rw [← hcc] at hpb
      conv_lhs => rw [show parse_concept_block a.2 block
        = ((parse_concept_block a.2 block).1, (parse_concept_block a.2 block).2) from rfl]
      rw [hpb]

theorem extract_fold_mem (blocks : List String) (a : List Concept × CleanerState) :
    ∀ c ∈ (blocks.foldl extract_step a).1,
      c ∈ a.1 ∨ ∃ st1 block st2, block ∈ blocks ∧
        parse_concept_block st1 block = (some c, st2) := by
  induction blocks generalizing a with
  | nil => intro c hc; exact Or.inl hc
  | cons b rest ih =>
    intro c hc
    rw [List.foldl_cons] at hc
    rcases ih _ c hc with h1 | ⟨st1, block, st2, hm, hpb⟩
    · rcases extract_step_mem a b c h1 with h2 | ⟨st1, st2, hpb⟩
      · exact Or.inl h2
      · exact Or.inr ⟨st1, b, st2, List.mem_cons_self _ _, hpb⟩
    · exact Or.inr ⟨st1, block, st2, List.mem_cons_of_mem _ hm, hpb⟩

theorem extract_concepts_lang (st : CleanerState) (content : String) :
    ∀ c ∈ (extract_concepts st content).1, ∀ p ∈ all_lang_pairs c,
      two_lower p.lang = true := by
  intro c hc
  unfold extract_concepts at hc
  dsimp only at hc
  rcases extract_fold_mem _ _ c hc with h1 | ⟨st1, block, st2, _, hpb⟩
  · exact absurd h1 (by simp)
  · exact parse_concept_block_lang st1 block c st2 hpb

theorem datatypes_warnings_empty (cs : List Concept)
    (h : ∀ c ∈ cs, ∀ p ∈ c.prefLabels ++ c.altLabels, two_lower p.lang = true) :
    (validate_datatypes_and_uris cs).2 = [] := by
  unfold validate_datatypes_and_uris
  dsimp only
  rw [List.flatMap_eq_nil_iff]
  intro c hc
  rw [List.filterMap_eq_nil_iff]
  intro p hp
  have hv : is_valid_language_tag p.lang = true := two_lower_valid _ (h c hc p hp)
  simp [hv]

/-- C10: every `(text, lang)` pair the parser stores — in any of the nine
label / note lists — carries a language tag of exactly two lowercase ASCII
letters (`en` is substituted when no tag is captured, longer tags are cut
to their first two letters by the `(?:@([a-z]{2}))?` capture); consequently
the datatype validator's language-tag warning list is empty for every
concept list produced by extraction. -/
theorem C10_language_tags :
    (∀ (st : CleanerState) (block : String) (c : Concept) (st' : CleanerState),
        parse_concept_block st block = (some c, st') →
          ∀ p ∈ all_lang_pairs c, two_lower p.lang = true)
    ∧ (∀ (st : CleanerState) (content : String),
        (validate_datatypes_and_uris (extract_concepts st content).1).2 = []) := by
  constructor
  · exact parse_concept_block_lang
  · intro st content
    apply datatypes_warnings_empty
    intro c hc p hp
    apply extract_concepts_lang st content c hc
    unfold all_lang_pairs
    rcases List.mem_append.mp hp with h1 | h1
    · simp [h1]
    · simp [h1]

/-- The block used by the C10 witness: its label carries an `@deu` tag,
captured as `de`. -/
def c10_block : String := "<http://x/2> a skos:Concept ; skos:prefLabel \"X\"@deu ."

/-- The concept the parser produces for `c10_block`. -/
def c10_concept : Concept :=
  { uri := "http://x/2", prefLabels := [⟨"X", "de"⟩], altLabels := [],
    definitions := [], notes := [], scopeNotes := [], editorialNotes := [],
    historyNotes := [], changeNotes := [], examples := [],
    other_properties := [], raw_block := c10_block, issues := ["URI normalized"] }

/-- Witness for C10: the `@deu` tag of the concrete block is stored as the
two-letter `de`. -/
theorem C10_language_tags_witness : two_lower (LPair.mk "X" "de").lang = true :=
  C10_language_tags.1 init_state c10_block c10_concept
    (parse_concept_block init_state c10_block).2 (by decide)
    (LPair.mk "X" "de") (by decide)

end TTL

namespace TTL

theorem str_data_append (a b : String) : (a ++ b).data = a.data ++ b.data := by
  cases a
  cases b
  rfl

theorem isPrefixOf_append_right (p q r : List Char) (h : p.isPrefixOf q = true) :
    p.isPrefixOf (q ++ r) = true := by
  induction p generalizing q with
  | nil => simp [List.isPrefixOf]
  | cons a p ih =>
    cases q with
    | nil => exact absurd h (by simp [List.isPrefixOf])
    | cons b q =>
      simp only [List.isPrefixOf, List.cons_append, Bool.and_eq_true] at h ⊢
      exact ⟨h.1, ih q h.2⟩

theorem starts_with_of_lit (lit rest mark : String)
    (h : py_starts_with lit mark = true) : py_starts_with (lit ++ rest) mark = true := by
  unfold py_starts_with at h ⊢
  rw [str_data_append]
  exact isPrefixOf_append_right _ _ _ h

theorem contains_of_prefix (m pat : String) (h : py_starts_with m pat = true) :
    contains_sub m pat = true := by
  unfold py_starts_with at h
  unfold contains_sub
  cases hm : m.data with
  | nil => rw [hm] at h; simpa [contains_sub_list] using h
  | cons c t =>
    rw [hm] at h
    simp [contains_sub_list, h]

theorem contains_append_right (pat l m : List Char)
    (h : contains_sub_list pat m = true) : contains_sub_list pat (l ++ m) = true := by
  induction l with
  | nil => exact h
  | cons c t ih =>
    simp only [List.cons_append, contains_sub_list, Bool.or_eq_true]
    exact Or.inr ih

theorem contains_append_left (pat l m : List Char)
    (h : contains_sub_list pat l = true) : contains_sub_list pat (l ++ m) = true := by
  induction l with
  | nil =>
    simp only [contains_sub_list] at h
    have hp : pat = [] := by
      obtain ⟨t, ht⟩ := List.isPrefixOf_iff_prefix.mp h
      exact List.append_eq_nil.mp ht |>.1
    subst hp
    cases m with
    | nil => simp [contains_sub_list]
    | cons c t => simp [contains_sub_list, List.isPrefixOf]
  | cons c t ih =>
    simp only [contains_sub_list, Bool.or_eq_true] at h
    simp only [List.cons_append, contains_sub_list, Bool.or_eq_true]
    rcases h with h | h
    · exact Or.inl (isPrefixOf_append_right _ _ _ h)
    · exact Or.inr (ih h)

theorem contains_str_right (a b pat : String) (h : contains_sub b pat = true) :
    contains_sub (a ++ b) pat = true := by
  unfold contains_sub at h ⊢
  rw [str_data_append]
  exact contains_append_right _ _ _ h

theorem contains_str_left (a b pat : String) (h : contains_sub a pat = true) :
    contains_sub (a ++ b) pat = true := by
  unfold contains_sub at h ⊢
  rw [str_data_append]
  exact contains_append_left _ _ _ h

theorem matched_by_any_of_pred (m : String) (pr : String × (String → Bool))
    (hm : pr ∈ category_preds) (h : pr.2 m = true) : matched_by_any m = true :=
  List.any_eq_true.mpr ⟨pr, hm, h⟩

end TTL

namespace TTL

theorem matched_cat (m : String) (k : Nat) (hk : k < category_preds.length)
    (h : (category_preds.get ⟨k, hk⟩).2 m = true) : matched_by_any m = true :=
  matched_by_any_of_pred m _ (List.get_mem _ _ _) h

theorem starts_with_chain (m mark lit rest : String) (hm : m = lit ++ rest)
    (h : mark.data.isPrefixOf lit.data = true) : py_starts_with m mark = true := by
  subst hm
  unfold py_starts_with
  rw [str_data_append]
  exact isPrefixOf_append_right _ _ _ h

theorem integrity_violations_matched (cs : List Concept) :
    ∀ m ∈ (validate_skos_integrity cs).1, matched_by_any m = true := by
  intro m hm
  unfold validate_skos_integrity at hm
  dsimp only at hm
  obtain ⟨c, _, hm2⟩ := List.mem_flatMap.mp hm
  rcases List.mem_append.mp hm2 with h1 | h1
  · unfold s14_msgs at h1
    obtain ⟨lang, _, hif⟩ := List.mem_filterMap.mp h1
    simp only [] at hif
    split at hif
    · have hmeq : m = _ := (Option.some.inj hif).symm
      apply matched_cat _ 0 (by decide)
      show py_starts_with m "S14 Violation" = true
      rw [hmeq]
      unfold py_starts_with
      simp only [str_data_append, List.append_assoc]
      apply isPrefixOf_append_right
      decide
    · exact absurd hif (by simp)
  · unfold s13_msgs at h1
    simp only [] at h1
    split at h1
    · have hmeq : m = _ := List.mem_singleton.mp h1
      apply matched_cat _ 1 (by decide)
      show py_starts_with m "S13 Violation" = true
      rw [hmeq]
      unfold py_starts_with
      simp only [str_data_append, List.append_assoc]
      apply isPrefixOf_append_right
      decide
    · exact absurd h1 (by simp)

theorem integrity_warnings_matched (cs : List Concept) :
    ∀ m ∈ (validate_skos_integrity cs).2, matched_by_any m = true := by
  intro m hm
  unfold validate_skos_integrity at hm
  dsimp only at hm
  obtain ⟨c, _, hm2⟩ := List.mem_flatMap.mp hm
  unfold label_quality_warnings at hm2
  obtain ⟨lb, _, hm3⟩ := List.mem_flatMap.mp hm2
  rcases List.mem_append.mp hm3 with h1 | h1
  rotate_left
  · split at h1
    · have hmeq : m = _ := List.mem_singleton.mp h1
      apply matched_cat _ 15 (by decide)
      show py_starts_with m "Label looks like URI" = true
      rw [hmeq]
      unfold py_starts_with
      simp only [str_data_append, List.append_assoc]
      apply isPrefixOf_append_right
      decide
    · exact absurd h1 (by simp)
  rcases List.mem_append.mp h1 with h2 | h2
  rotate_left
  · split at h2
    · have hmeq : m = _ := List.mem_singleton.mp h2
      apply matched_cat _ 14 (by decide)
      show py_starts_with m "Potential encoding issue" = true
      rw [hmeq]
      unfold py_starts_with
      simp only [str_data_append, List.append_assoc]
      apply isPrefixOf_append_right
      decide
    · exact absurd h2 (by simp)
  rcases List.mem_append.mp h2 with h3 | h3
  · split at h3
    · have hmeq : m = _ := List.mem_singleton.mp h3
      apply matched_cat _ 12 (by decide)
      show py_starts_with m "Very long label" = true
      rw [hmeq]
      unfold py_starts_with
      simp only [str_data_append, List.append_assoc]
      apply isPrefixOf_append_right
      decide
    · exact absurd h3 (by simp)
  · split at h3
    · have hmeq : m = _ := List.mem_singleton.mp h3
      apply matched_cat _ 13 (by decide)
      show py_starts_with m "Empty label" = true
      rw [hmeq]
      unfold py_starts_with
      simp only [str_data_append, List.append_assoc]
      apply isPrefixOf_append_right
      decide
    · exact absurd h3 (by simp)

end TTL

namespace TTL

theorem semantic_violations_matched (cs : List Concept) :
    ∀ m ∈ (validate_semantic_relations cs).1, matched_by_any m = true := by
  intro m hm
  unfold validate_semantic_relations at hm
  simp only [] at hm
  obtain ⟨x, _, hmeq0⟩ := List.mem_map.mp hm
  have hmeq : m = _ := hmeq0.symm
  apply matched_cat _ 4 (by decide)
  show py_starts_with m "S27 Violation" = true
  rw [hmeq]
  unfold py_starts_with
  simp only [str_data_append, List.append_assoc]
  apply isPrefixOf_append_right
  decide

theorem semantic_warnings_matched (cs : List Concept) :
    ∀ m ∈ (validate_semantic_relations cs).2, matched_by_any m = true := by
  intro m hm
  unfold validate_semantic_relations at hm
  simp only [] at hm
  obtain ⟨x, _, hif⟩ := List.mem_filterMap.mp hm
  split at hif
  · have hmeq : m = _ := (Option.some.inj hif).symm
    apply matched_cat _ 5 (by decide)
    show py_starts_with m "Simple cycle detected" = true
    rw [hmeq]
    unfold py_starts_with
    simp only [str_data_append, List.append_assoc]
    apply isPrefixOf_append_right
    decide
  · exact absurd hif (by simp)

theorem datatypes_violations_matched (cs : List Concept) :
    ∀ m ∈ (validate_datatypes_and_uris cs).1, matched_by_any m = true := by
  intro m hm
  unfold validate_datatypes_and_uris at hm
  dsimp only at hm
  obtain ⟨c, _, hm2⟩ := List.mem_flatMap.mp hm
  split at hm2
  · have hmeq : m = _ := List.mem_singleton.mp hm2
    apply matched_cat _ 2 (by decide)
    show py_starts_with m "Invalid URI format" = true
    rw [hmeq]
    unfold py_starts_with
    simp only [str_data_append, List.append_assoc]
    apply isPrefixOf_append_right
    decide
  · exact absurd hm2 (by simp)

theorem datatypes_warnings_matched (cs : List Concept) :
    ∀ m ∈ (validate_datatypes_and_uris cs).2, matched_by_any m = true := by
  intro m hm
  unfold validate_datatypes_and_uris at hm
  dsimp only at hm
  obtain ⟨c, _, hm2⟩ := List.mem_flatMap.mp hm
  obtain ⟨lb, _, hif⟩ := List.mem_filterMap.mp hm2
  split at hif
  · have hmeq : m = _ := (Option.some.inj hif).symm
    apply matched_cat _ 3 (by decide)
    show contains_sub m "Potentially invalid language tag" = true
    apply contains_of_prefix
    rw [hmeq]
    unfold py_starts_with
    simp only [str_data_append, List.append_assoc]
    apply isPrefixOf_append_right
    decide
  · exact absurd hif (by simp)

theorem hierarchy_violations_matched (w : Bool) (cs : List Concept) :
    ∀ m ∈ (validate_hierarchy_gaps w cs).1, matched_by_any m = true := by
  intro m hm
  unfold validate_hierarchy_gaps at hm
  simp only [] at hm
  split at hm
  · exact absurd hm (by simp)
  · obtain ⟨it, _, hm2⟩ := List.mem_flatMap.mp hm
    unfold hg_violation at hm2
    simp only [] at hm2
    split at hm2
    · have hmeq : m = _ := List.mem_singleton.mp hm2
      apply matched_cat _ 7 (by decide)
      show py_starts_with m "Inconsistent hierarchy" = true
      rw [hmeq]
      unfold py_starts_with
      simp only [str_data_append, List.append_assoc]
      apply isPrefixOf_append_right
      decide
    · exact absurd hm2 (by simp)

theorem hierarchy_warnings_matched (w : Bool) (cs : List Concept) :
    ∀ m ∈ (validate_hierarchy_gaps w cs).2.1, matched_by_any m = true := by
  intro m hm
  unfold validate_hierarchy_gaps at hm
  simp only [] at hm
  split at hm
  · exact absurd hm (by simp)
  · obtain ⟨it, _, hm2⟩ := List.mem_flatMap.mp hm
    unfold hg_gap_warnings at hm2
    obtain ⟨pp, _, hif⟩ := List.mem_filterMap.mp hm2
    split at hif
    · have hmeq : m = _ := (Option.some.inj hif).symm
      apply matched_cat _ 6 (by decide)
      show py_starts_with m "Hierarchy gap" = true
      rw [hmeq]
      unfold py_starts_with
      simp only [str_data_append, List.append_assoc]
      apply isPrefixOf_append_right
      decide
    · exact absurd hif (by simp)

theorem hierarchy_infos_matched (w : Bool) (cs : List Concept) :
    ∀ m ∈ (validate_hierarchy_gaps w cs).2.2, matched_by_any m = true := by
  intro m hm
  unfold validate_hierarchy_gaps at hm
  simp only [] at hm
  split at hm
  · exact absurd hm (by simp)
  · obtain ⟨it, _, hm2⟩ := List.mem_flatMap.mp hm
    unfold hg_infos at hm2
    simp only [] at hm2
    obtain ⟨pc, _, hif⟩ := List.mem_filterMap.mp hm2
    split at hif
    · have hmeq : m = _ := (Option.some.inj hif).symm
      apply matched_cat _ 8 (by decide)
      show py_starts_with m "Parent missing skos:narrower" = true
      rw [hmeq]
      unfold py_starts_with
      simp only [str_data_append, List.append_assoc]
      apply isPrefixOf_append_right
      decide
    · exact absurd hif (by simp)

end TTL

namespace TTL

theorem scheme_violations_matched (st : CleanerState) (cs : List Concept) :
    ∀ m ∈ (validate_scheme_consistency st cs).1, matched_by_any m = true := by
  intro m hm
  unfold validate_scheme_consistency at hm
  simp only [] at hm
  rcases List.mem_append.mp hm with h1 | h1
  · obtain ⟨u, _, h2⟩ := List.mem_flatMap.mp h1
    obtain ⟨tok, _, hif⟩ := List.mem_filterMap.mp h2
    split at hif
    · have hmeq : m = _ := (Option.some.inj hif).symm
      apply matched_cat _ 9 (by decide)
      show (contains_sub m "has topConceptOf" && contains_sub m "missing inScheme") = true
      rw [hmeq, Bool.and_eq_true]
      constructor
      · unfold contains_sub
        simp only [str_data_append, List.append_assoc]
        apply contains_append_right
        apply contains_append_right
        apply contains_append_left
        decide
      · unfold contains_sub
        simp only [str_data_append, List.append_assoc]
        apply contains_append_right
        apply contains_append_right
        apply contains_append_right
        apply contains_append_right
        apply contains_append_left
        decide
    · exact absurd hif (by simp)
  · split at h1
    · exact absurd h1 (by simp)
    · obtain ⟨target, _, h2⟩ := List.mem_flatMap.mp h1
      split at h2
      · have hmeq : m = _ := List.mem_singleton.mp h2
        apply matched_cat _ 10 (by decide)
        show contains_sub m "hasTopConcept points to non-Concept" = true
        apply contains_of_prefix
        rw [hmeq]
        unfold py_starts_with
        simp only [str_data_append, List.append_assoc]
        apply isPrefixOf_append_right
        decide
      · split at h2
        · split at h2
          · split at h2
            · have hmeq : m = _ := List.mem_singleton.mp h2
              apply matched_cat _ 11 (by decide)
              show (contains_sub m "is hasTopConcept of" &&
                contains_sub m "missing inScheme") = true
              rw [hmeq, Bool.and_eq_true]
              constructor
              · unfold contains_sub
                simp only [str_data_append, List.append_assoc]
                apply contains_append_right
                apply contains_append_right
                apply contains_append_left
                decide
              · unfold contains_sub
                simp only [str_data_append, List.append_assoc]
                apply contains_append_right
                apply contains_append_right
                apply contains_append_right
                apply contains_append_right
                apply contains_append_left
                decide
            · exact absurd h2 (by simp)
          · exact absurd h2 (by simp)
        · exact absurd h2 (by simp)

end TTL

namespace TTL

/-- Concepts for the C6 counterexample: a single record carrying an
`skosxl:literalForm` statement, which the flag-enabled SKOS-XL family
reports as an orphaned label. -/
def c6_concepts : List Concept :=
  [sample_concept "http://x/lbl" ["skosxl:literalForm \"foo\"@en"]]

/-- The cleaner state with SKOS-XL validation enabled. -/
def c6_state : CleanerState := { init_state with enable_skos_xl := true }

/-- Counterexample for C6: the SKOS-XL family (a validation family)
produces a warning that no category predicate of
`_summarize_validation_counts` counts — all sixteen reported counts are
zero although one finding exists. -/
theorem C6_skos_xl_uncategorized :
    (validate_skos_xl_labels c6_state c6_concepts).2
      = ["Orphaned SKOS-XL label <http://x/lbl> not referenced by any concept. Suggestion: Link to concept via skosxl:prefLabel/altLabel/hiddenLabel."]
    ∧ matched_by_any
        "Orphaned SKOS-XL label <http://x/lbl> not referenced by any concept. Suggestion: Link to concept via skosxl:prefLabel/altLabel/hiddenLabel."
      = false
    ∧ (summarize_validation_counts []
        (validate_skos_xl_labels c6_state c6_concepts).2 []).all
        (fun pr => pr.2 = 0) = true := by
  refine ⟨by decide, by decide, by decide⟩

/-- C6 (amended): the summarization pass reports a count for every one of
the sixteen fixed named categories (including zeros), and every finding
string produced by validation families 1 (label integrity), 2 (semantic
relations), 3 (datatypes/URIs), 5 (hierarchy gaps) and 6 (scheme
consistency) is counted by at least one category predicate; findings of the
flag-gated SKOS-XL family (4) can fall outside all sixteen categories, as
the counterexample shows. -/
theorem C6_summarization_coverage (st : CleanerState) (cs : List Concept)
    (v w i : List String) :
    (summarize_validation_counts v w i).map Prod.fst
      = ["S14 prefLabel duplicates", "S13 pref/alt overlap", "URI format invalid",
         "Language tag possibly invalid", "S27 broader+related conflict",
         "Simple hierarchy cycles", "Hierarchy gap (missing intermediate level)",
         "Hierarchy: missing broader to prefix", "Hierarchy: parent missing narrower",
         "Scheme: topConceptOf without inScheme", "Scheme: hasTopConcept -> non-Concept",
         "Scheme: hasTopConcept target missing inScheme", "Label warning: very long",
         "Label warning: empty", "Label warning: encoding issue",
         "Label warning: looks like URI"]
    ∧ (∀ m ∈ (validate_skos_integrity cs).1 ++ (validate_skos_integrity cs).2
          ++ (validate_semantic_relations cs).1 ++ (validate_semantic_relations cs).2
          ++ (validate_datatypes_and_uris cs).1 ++ (validate_datatypes_and_uris cs).2
          ++ (validate_hierarchy_gaps st.warn_missing_narrower cs).1
          ++ (validate_hierarchy_gaps st.warn_missing_narrower cs).2.1
          ++ (validate_hierarchy_gaps st.warn_missing_narrower cs).2.2
          ++ (validate_scheme_consistency st cs).1
          ++ (validate_scheme_consistency st cs).2,
        matched_by_any m = true) := by
  constructor
  · rfl
  · intro m hm
    rcases List.mem_append.mp hm with h | h
    rotate_left
    · exact absurd h (by
        have : (validate_scheme_consistency st cs).2 = [] := rfl
        simp [this])
    rcases List.mem_append.mp h with h | h
    rotate_left
    · exact scheme_violations_matched st cs m h
    rcases List.mem_append.mp h with h | h
    rotate_left
    · exact hierarchy_infos_matched _ cs m h
    rcases List.mem_append.mp h with h | h
    rotate_left
    · exact hierarchy_warnings_matched _ cs m h
    rcases List.mem_append.mp h with h | h
    rotate_left
    · exact hierarchy_violations_matched _ cs m h
    rcases List.mem_append.mp h with h | h
    rotate_left
    · exact datatypes_warnings_matched cs m h
    rcases List.mem_append.mp h with h | h
    rotate_left
    · exact datatypes_violations_matched cs m h
    rcases List.mem_append.mp h with h | h
    rotate_left
    · exact semantic_warnings_matched cs m h
    rcases List.mem_append.mp h with h | h
    rotate_left
    · exact semantic_violations_matched cs m h
    rcases List.mem_append.mp h with h | h
    · exact integrity_violations_matched cs m h
    · exact integrity_warnings_matched cs m h

/-- Witness for the amended C6 at a concrete invalid-URI finding. -/
theorem C6_summarization_coverage_witness :
    matched_by_any "Invalid URI format: not a uri" = true :=
  (C6_summarization_coverage init_state [sample_concept "not a uri" []] [] [] []).2
    "Invalid URI format: not a uri" (by decide)

end TTL

namespace TTL

theorem max_by_len_spec (h : String) (t : List String) :
    max_by_len h t ∈ h :: t ∧ ∀ x ∈ h :: t, x.length ≤ (max_by_len h t).length := by
  induction t generalizing h with
  | nil =>
    constructor
    · simp [max_by_len]
    · intro x hx
      rw [List.mem_singleton.mp hx]
      simp [max_by_len]
  | cons y t ih =>
    by_cases hc : h.length < y.length
    · have hstep : max_by_len h (y :: t) = max_by_len y t := by
        simp [max_by_len, hc]
      obtain ⟨ihm, ihb⟩ := ih y
      constructor
      · rw [hstep]
        rcases List.mem_cons.mp ihm with h1 | h1
        · rw [h1]
          exact List.mem_cons_of_mem _ (List.mem_cons_self _ _)
        · exact List.mem_cons_of_mem _ (List.mem_cons_of_mem _ h1)
      · intro x hx
        rw [hstep]
        rcases List.mem_cons.mp hx with h1 | h1
        · subst h1
          have h2 := ihb y (List.mem_cons_self _ _)
          omega
        · exact ihb x h1
    · have hstep : max_by_len h (y :: t) = max_by_len h t := by
        simp [max_by_len, hc]
      obtain ⟨ihm, ihb⟩ := ih h
      constructor
      · rw [hstep]
        rcases List.mem_cons.mp ihm with h1 | h1
        · rw [h1]
          exact List.mem_cons_self _ _
        · exact List.mem_cons_of_mem _ (List.mem_cons_of_mem _ h1)
      · intro x hx
        rw [hstep]
        rcases List.mem_cons.mp hx with h1 | h1
        · subst h1
          exact ihb x (List.mem_cons_self _ _)
        rcases List.mem_cons.mp h1 with h2 | h2
        · subst h2
          have h3 := ihb h (List.mem_cons_self _ _)
          omega
        · exact ihb x (List.mem_cons_of_mem _ h2)

/-- Concepts for the C7 counterexample: two concepts share the code `311`;
the first declares a broader link to the `31` concept, the second declares
none at all. -/
def c7_concepts : List Concept :=
  [sample_concept "http://x/311" ["skos:broader <http://z/31>"],
   sample_concept "http://y/311" [],
   sample_concept "http://z/31" []]

/-- Counterexample for C7: concept `http://y/311` has code `311`, an
existing candidate prefix `31`, and declares no `skos:broader` statement of
its own, yet the autofixer appends nothing to it and reports zero
additions — the broader map is keyed by code, so the sibling
`http://x/311`'s broader link suppresses the fix. -/
theorem C7_shared_code_counterexample :
    (sample_concept "http://y/311" []).other_properties = []
    ∧ lookup_last (build_uri_to_code c7_concepts) "http://y/311" = some "311"
    ∧ (code_prefixes "311").filter (fun p => (all_codes c7_concepts).contains p) = ["31"]
    ∧ (apply_hierarchy_autofix init_state c7_concepts).2.1 = 0
    ∧ (apply_hierarchy_autofix init_state c7_concepts).1.get? 1
        = some (sample_concept "http://y/311" []) := by
  refine ⟨by decide, by decide, by decide, by decide, by decide⟩

/-- C7 (amended): when any concept has a code, the autofixer maps each
concept independently through `autofix_step`, returns the number of
concepts it fixed and logs one line per fix; a concept is fixed —
exactly one `skos:broader <parent>` entry appended, parent being the
longest candidate prefix code existing in the graph — precisely when no
broader target declared by any concept sharing its code hits an existing
candidate and the exact triple string is not already present.  The final
conjunct shows `max_by_len` picks a longest candidate. -/
theorem C7_hierarchy_autofix (st : CleanerState) (cs : List Concept) :
    (build_code_to_uri cs ≠ [] →
      (apply_hierarchy_autofix st cs).1 = cs.map (autofix_step cs)
      ∧ (apply_hierarchy_autofix st cs).2.1 = cs.countP (autofix_adds cs)
      ∧ (apply_hierarchy_autofix st cs).2.2.change_log
          = st.change_log ++ cs.filterMap
              (fun c => if autofix_adds cs c then some (autofix_log_line cs c) else none))
    ∧ (∀ (c : Concept) (code : String),
        lookup_last (build_uri_to_code cs) c.uri = some code →
        ∀ ch ct, (code_prefixes code).filter (fun p => (all_codes cs).contains p)
            = ch :: ct →
        (∀ b ∈ broader_codes_of cs code, b ∉ ch :: ct) →
        ("skos:broader <" ++ strip_set ['<', '>']
            ((lookup_last (build_code_to_uri cs) (max_by_len ch ct)).getD "") ++ ">")
          ∉ c.other_properties →
        autofix_adds cs c = true
        ∧ (autofix_step cs c).other_properties
            = c.other_properties ++
              ["skos:broader <" ++ strip_set ['<', '>']
                ((lookup_last (build_code_to_uri cs) (max_by_len ch ct)).getD "") ++ ">"])
    ∧ (∀ (ch : String) (ct : List String),
        max_by_len ch ct ∈ ch :: ct
        ∧ ∀ x ∈ ch :: ct, x.length ≤ (max_by_len ch ct).length) := by
  refine ⟨?_, ?_, fun ch ct => max_by_len_spec ch ct⟩
  · intro hne
    unfold apply_hierarchy_autofix
    rw [if_neg hne]
    exact ⟨rfl, rfl, rfl⟩
  · intro c code hcode ch ct hcands hb htr
    have hpres : code_prefixes code ≠ [] := by
      intro hnil
      rw [hnil] at hcands
      exact absurd hcands (by simp)
    have hadds : autofix_adds cs c = true := by
      unfold autofix_adds
      rw [hcode]
      simp only []
      rw [if_neg hpres, hcands]
      have hany : (broader_codes_of cs code).any (fun b => decide (b ∈ ch :: ct)) = false := by
        rw [List.any_eq_false]
        intro b hbm
        simpa using hb b hbm
      dsimp only
      rw [if_neg (by intro hh; rw [hany] at hh; exact absurd hh (by simp))]
      simpa using htr
    refine ⟨hadds, ?_⟩
    unfold autofix_step
    rw [if_pos hadds]
    unfold autofix_triple
    rw [hcode]
    simp only []
    rw [hcands]

/-- Witness for the amended C7: the claim's own scenario — concept `311`
with no broader statement, concept `31` present — gets exactly the
`skos:broader <http://x/31>` entry appended. -/
theorem C7_hierarchy_autofix_witness :
    (autofix_step [sample_concept "http://x/311" [], sample_concept "http://x/31" []]
        (sample_concept "http://x/311" [])).other_properties
      = [] ++ ["skos:broader <http://x/31>"] :=
  ((C7_hierarchy_autofix init_state
      [sample_concept "http://x/311" [], sample_concept "http://x/31" []]).2.1
    (sample_concept "http://x/311" []) "311" (by decide) "31" [] (by decide)
    (by decide) (by decide)).2

end TTL

namespace TTL

theorem chunks_of_flatten (n : Nat) (hn : 0 < n) :
    ∀ (fuel : Nat) (l : List Concept), l.length ≤ fuel →
      (chunks_of n fuel l).flatten = l := by
  intro fuel
  induction fuel with
  | zero =>
    intro l hl
    have hnil : l = [] := List.eq_nil_of_length_eq_zero (Nat.le_zero.mp hl)
    subst hnil
    rfl
  | succ f ih =>
    intro l hl
    match l with
    | [] => rfl
    | c :: t =>
      show ((c :: t).take n :: chunks_of n f ((c :: t).drop n)).flatten = c :: t
      rw [List.flatten_cons]
      rw [ih ((c :: t).drop n) (by
        simp only [List.length_drop, List.length_cons] at *
        omega)]
      exact List.take_append_drop n (c :: t)

theorem chunks_of_length_le (n : Nat) :
    ∀ (fuel : Nat) (l : List Concept), ∀ ch ∈ chunks_of n fuel l, ch.length ≤ n := by
  intro fuel
  induction fuel with
  | zero => intro l ch hch; exact absurd hch (by simp [chunks_of])
  | succ f ih =>
    intro l ch hch
    match l with
    | [] => exact absurd hch (by simp [chunks_of])
    | c :: t =>
      rcases List.mem_cons.mp hch with h1 | h1
      · rw [h1]
        simp [List.length_take]
      · exact ih _ ch h1

theorem chunked_fold_eq (chs : List (List Concept)) (a : List String × List String) :
    chs.foldl (fun acc ch => (acc.1 ++ chunk_families_violations ch,
        acc.2 ++ chunk_families_warnings ch)) a
      = (a.1 ++ chs.flatMap chunk_families_violations,
         a.2 ++ chs.flatMap chunk_families_warnings) := by
  induction chs generalizing a with
  | nil => simp
  | cons ch rest ih =>
    rw [List.foldl_cons, ih]
    simp [List.flatMap_cons, List.append_assoc]

/-- C8: in chunked mode the validator applies rule families 1-3 to each
contiguous chunk of at most `chunk_size` concepts (the chunks flatten back
to the full list), while the hierarchy-gap family and the scheme-consistency
family are each invoked exactly once over the full assembled concept list —
the decomposition shows they contribute
`validate_hierarchy_gaps ... cs` / `validate_scheme_consistency st cs`,
exactly the same terms the non-chunked `standard_validate` run contributes,
so the hierarchy-gap and scheme-consistency findings of the two modes are
equal. -/
theorem C8_chunked_validation (st : CleanerState) (cs : List Concept)
    (hn : 0 < st.chunk_size) :
    (chunks_of st.chunk_size cs.length cs).flatten = cs
    ∧ (∀ ch ∈ chunks_of st.chunk_size cs.length cs, ch.length ≤ st.chunk_size)
    ∧ validate_concepts_chunked st cs
        = ((chunks_of st.chunk_size cs.length cs).flatMap chunk_families_violations
             ++ (validate_hierarchy_gaps st.warn_missing_narrower cs).1
             ++ (validate_scheme_consistency st cs).1,
           (chunks_of st.chunk_size cs.length cs).flatMap chunk_families_warnings
             ++ (validate_hierarchy_gaps st.warn_missing_narrower cs).2.1
             ++ (validate_scheme_consistency st cs).2)
    ∧ standard_validate st cs
        = ((validate_skos_integrity cs).1 ++ (validate_semantic_relations cs).1
             ++ (validate_datatypes_and_uris cs).1
             ++ (if st.enable_skos_xl then validate_skos_xl_labels st cs
                 else ([], [])).1
             ++ (validate_hierarchy_gaps st.warn_missing_narrower cs).1
             ++ (validate_scheme_consistency st cs).1,
           (validate_skos_integrity cs).2 ++ (validate_semantic_relations cs).2
             ++ (validate_datatypes_and_uris cs).2
             ++ (if st.enable_skos_xl then validate_skos_xl_labels st cs
                 else ([], [])).2
             ++ (validate_hierarchy_gaps st.warn_missing_narrower cs).2.1
             ++ (validate_scheme_consistency st cs).2) := by
  refine ⟨chunks_of_flatten st.chunk_size hn cs.length cs (le_refl _),
    chunks_of_length_le st.chunk_size cs.length cs, ?_, ?_⟩
  · unfold validate_concepts_chunked
    simp only []
    rw [chunked_fold_eq]
    simp [List.append_assoc]
  · unfold standard_validate
    simp [List.append_assoc]

/-- Witness for C8 at a concrete three-concept list with the default chunk
size. -/
theorem C8_chunked_validation_witness :
    (chunks_of init_state.chunk_size
      ([sample_concept "http://x/311" [], sample_concept "http://x/31" [],
        sample_concept "http://x/3" []] : List Concept).length
      [sample_concept "http://x/311" [], sample_concept "http://x/31" [],
        sample_concept "http://x/3" []]).flatten
      = [sample_concept "http://x/311" [], sample_concept "http://x/31" [],
         sample_concept "http://x/3" []] :=
  (C8_chunked_validation init_state
    [sample_concept "http://x/311" [], sample_concept "http://x/31" [],
     sample_concept "http://x/3" []] (by decide)).1

end TTL
